import Mathlib

/-!
Shallow embedding of the tree-sitter syntax-highlighting crate
(`highlight/src/lib.rs`) together with proofs about the claims of its
natural-language specification.

Machine integers (`usize`) are modelled as `Nat`; the embedded algorithms
perform no arithmetic that can overflow (only comparisons, minima and
copies), so no modular reduction is needed.  `usize::MAX` is the constant
`USIZE_MAX`.

`tree_sitter::Range` carries byte offsets and row/column points; every
decision in the embedded code compares byte offsets only (points are
copied but never inspected), so ranges are modelled by their byte
components alone.

Rust `Vec` stacks push and pop at the back and inspect `last()`; here
stacks are Lean lists with the most recent element at the HEAD (push is
cons, `last()` is `head?`).  This is a pure change of representation.
-/

set_option maxRecDepth 10000

namespace TSHighlight

/-- Model of usize::MAX. -/
def USIZE_MAX : Nat := 2 ^ 64 - 1

/-- Model of `const CANCELLATION_CHECK_INTERVAL: usize = 100;` (lib.rs line 11). -/
def CANCELLATION_CHECK_INTERVAL : Nat := 100

/-- Byte components of `tree_sitter::Range`. -/
structure RangeM where
  start_byte : Nat
  end_byte : Nat
  deriving DecidableEq

/-- A syntax-tree node: an identity (node equality in tree-sitter compares
identities), its byte range, and the byte ranges of its direct children
(consumed by `intersect_ranges`). -/
structure NodeRef where
  id : Nat
  range : RangeM
  child_ranges : List RangeM
  deriving DecidableEq

/-- One capture of a query match: the capture id within the query and the
captured node. -/
structure QCapture where
  index : Nat
  node : NodeRef
  deriving DecidableEq

/-- A query match: an identity (used by `QueryMatch::remove`), the pattern
index and the list of captures. -/
structure QMatch where
  id : Nat
  pattern_index : Nat
  captures : List QCapture
  deriving DecidableEq

/-- One item of the `captures` stream of a layer: a pair of a match and the
index of one capture within that match, as produced by
`QueryCursor::captures`. -/
structure StreamItem where
  m : QMatch
  ci : Nat
  deriving DecidableEq

/-- The capture denoted by a stream item (`m.captures[*capture_index]`).
The query engine only produces in-bounds indices; the default value is
never reached on streams it produces. -/
def StreamItem.cap (it : StreamItem) : QCapture :=
  it.m.captures.getD it.ci ⟨0, ⟨0, ⟨0, 0⟩, []⟩⟩

/-- Model of `enum Error` (lib.rs lines 19-23). -/
inductive ErrorM where
  | Cancelled
  | InvalidLanguage
  | Unknown
  deriving DecidableEq

/-- Model of `enum HighlightEvent` (lib.rs lines 27-31).  `Highlight` is a
plain index (`struct Highlight(pub usize)`), modelled as `Nat`. -/
inductive HighlightEvent where
  | Source (start_ : Nat) (end_ : Nat)
  | HighlightStart (h : Nat)
  | HighlightEnd
  deriving DecidableEq

/-! ### UTF-8

`str::from_utf8` and `Node::utf8_text` validate UTF-8.  The decoder below
implements the standard UTF-8 validation table (continuation bytes
`80..BF`; 2-byte leads `C2..DF`; 3-byte leads `E0` with second byte
`A0..BF`, `E1..EC`/`EE..EF` with `80..BF`, `ED` with `80..9F`; 4-byte
leads `F0` with `90..BF`, `F1..F3` with `80..BF`, `F4` with `80..8F`) and
produces the decoded scalar values.  Equality of Rust `&str` values is
byte equality, which for valid sequences coincides with equality of the
decoded scalar sequences. -/

/-- Is `b` a UTF-8 continuation byte? -/
def utf8Cont (b : Nat) : Bool := 0x80 ≤ b && b ≤ 0xBF

/-- Decode a byte list as UTF-8; `none` on any invalid sequence. -/
def utf8Decode : List Nat → Option (List Char)
  | [] => some []
  | b :: rest =>
    if b ≤ 0x7F then
      (utf8Decode rest).map (fun cs => Char.ofNat b :: cs)
    else if 0xC2 ≤ b && b ≤ 0xDF then
      match rest with
      | c :: rest2 =>
        if utf8Cont c then
          (utf8Decode rest2).map (fun cs => Char.ofNat ((b - 0xC0) * 64 + (c - 0x80)) :: cs)
        else none
      | [] => none
    else if b == 0xE0 then
      match rest with
      | c :: d :: rest2 =>
        if (0xA0 ≤ c && c ≤ 0xBF) && utf8Cont d then
          (utf8Decode rest2).map
            (fun cs => Char.ofNat ((b - 0xE0) * 4096 + (c - 0x80) * 64 + (d - 0x80)) :: cs)
        else none
      | _ => none
    else if (0xE1 ≤ b && b ≤ 0xEC) || b == 0xEE || b == 0xEF then
      match rest with
      | c :: d :: rest2 =>
        if utf8Cont c && utf8Cont d then
          (utf8Decode rest2).map
            (fun cs => Char.ofNat ((b - 0xE0) * 4096 + (c - 0x80) * 64 + (d - 0x80)) :: cs)
        else none
      | _ => none
    else if b == 0xED then
      match rest with
      | c :: d :: rest2 =>
        if (0x80 ≤ c && c ≤ 0x9F) && utf8Cont d then
          (utf8Decode rest2).map
            (fun cs => Char.ofNat ((b - 0xE0) * 4096 + (c - 0x80) * 64 + (d - 0x80)) :: cs)
        else none
      | _ => none
    else if b == 0xF0 then
      match rest with
      | c :: d :: e :: rest2 =>
        if (0x90 ≤ c && c ≤ 0xBF) && utf8Cont d && utf8Cont e then
          (utf8Decode rest2).map
            (fun cs =>
              Char.ofNat
                ((b - 0xF0) * 262144 + (c - 0x80) * 4096 + (d - 0x80) * 64 + (e - 0x80)) :: cs)
        else none
      | _ => none
    else if 0xF1 ≤ b && b ≤ 0xF3 then
      match rest with
      | c :: d :: e :: rest2 =>
        if utf8Cont c && utf8Cont d && utf8Cont e then
          (utf8Decode rest2).map
            (fun cs =>
              Char.ofNat
                ((b - 0xF0) * 262144 + (c - 0x80) * 4096 + (d - 0x80) * 64 + (e - 0x80)) :: cs)
        else none
      | _ => none
    else if b == 0xF4 then
      match rest with
      | c :: d :: e :: rest2 =>
        if (0x80 ≤ c && c ≤ 0x8F) && utf8Cont d && utf8Cont e then
          (utf8Decode rest2).map
            (fun cs =>
              Char.ofNat
                ((b - 0xF0) * 262144 + (c - 0x80) * 4096 + (d - 0x80) * 64 + (e - 0x80)) :: cs)
        else none
      | _ => none
    else none

/-- Model of `str::from_utf8` on a byte list, returning the decoded string. -/
def from_utf8 (bytes : List Nat) : Option String :=
  (utf8Decode bytes).map (fun cs => String.mk cs)

/-- Rust slice `source[s..e]` (in-bounds in all embedded uses). -/
def sliceBytes (source : List Nat) (s e : Nat) : List Nat :=
  (source.drop s).take (e - s)

/-- Model of `Node::utf8_text(source).ok()`. -/
def utf8Text (source : List Nat) (n : NodeRef) : Option String :=
  from_utf8 (sliceBytes source n.range.start_byte n.range.end_byte)

/-! ### Query model and `load_configuration`'s capture disabling

A `tree_sitter::Query` is external to this crate; for the purposes of the
capture-disabling step of `Highlighter::load_configuration` (lib.rs lines
181-186) a query is its list of capture names plus the set of capture
names that have been disabled via `Query::disable_capture`. -/

structure QueryModel where
  capture_names : List String
  disabled : List String
  deriving DecidableEq

/-- Model of `Query::disable_capture(name)`: record the name as disabled. -/
def QueryModel.disable_capture (q : QueryModel) (name : String) : QueryModel :=
  { q with disabled := q.disabled ++ [name] }

/-- The capture-disabling loop of `Highlighter::load_configuration`
(lib.rs lines 181-186):

    let injections_query = Query::new(language, injection_query)?;
    for injection_capture in injections_query.capture_names() {
        if injection_capture != "injection.site" {
            query.disable_capture(injection_capture);
        }
    }

It iterates over the capture names of the injections-only query and
disables those of them that are not `injection.site` in the COMBINED
query `query`.  The result is the pair (combined query, injections-only
query) after the loop. -/
def load_configuration_disable (query injections_query : QueryModel) :
    QueryModel × QueryModel :=
  (injections_query.capture_names.foldl
    (fun q name => if name ≠ "injection.site" then q.disable_capture name else q) query,
   injections_query)

/-! ### Best-match capture resolution (`highlight_indices`)

Model of the closure in `Highlighter::load_configuration` (lib.rs lines
207-233) that maps each capture name to the best-matching recognized
highlight name. -/

/-- Rust's `str::split('.')`, on the character list of a string: the
dot-separated parts (an empty string yields one empty part, consecutive
dots yield empty parts). -/
def splitParts : List Char → List (List Char)
  | [] => [[]]
  | c :: rest =>
    if c = '.' then [] :: splitParts rest
    else
      match splitParts rest with
      | [] => [[c]]
      | p :: ps => (c :: p) :: ps

/-- The inner `for part in highlight_name.split('.')` loop: walks the parts
of a highlight name, counting them, and stops at the first part that does
not occur among the capture's parts.  Returns `(matches, len)`. -/
def matchLoop (capture_parts : List (List Char)) : List (List Char) → Nat → Bool × Nat
  | [], len => (true, len)
  | part :: rest, len =>
    if capture_parts.contains part then matchLoop capture_parts rest (len + 1)
    else (false, len + 1)

/-- The fold over the enumerated highlight names, tracking
`(best_index, best_match_len)`. -/
def resolveGo (capture_parts : List (List Char)) :
    List String → Nat → Option Nat → Nat → Option Nat
  | [], _, best_index, _ => best_index
  | name :: rest, i, best_index, best_match_len =>
    let ml := matchLoop capture_parts (splitParts name.data) 0
    if ml.1 && decide (best_match_len < ml.2) then
      resolveGo capture_parts rest (i + 1) (some i) ml.2
    else
      resolveGo capture_parts rest (i + 1) best_index best_match_len

/-- Model of the per-capture-name body of the `highlight_indices`
computation (lib.rs lines 210-231). -/
def resolveHighlight (highlight_names : List String) (capture_name : String) : Option Nat :=
  resolveGo (splitParts capture_name.data) highlight_names 0 none 0

/-- Is highlight name `h` a candidate for a capture with parts `cp`: does
every part of `h` occur among `cp`? -/
def candB (cp : List (List Char)) (h : String) : Bool :=
  (splitParts h.data).all (fun p => cp.contains p)

/-- The number of dot-separated parts of a highlight name. -/
def numParts (h : String) : Nat := (splitParts h.data).length

/-- The candidates among the highlight names, in list order, each with its
position and its number of parts (specification side of claim C4). -/
def candPairs (cp : List (List Char)) : Nat → List String → List (Nat × Nat)
  | _, [] => []
  | i, h :: rest =>
    if candB cp h then (i, numParts h) :: candPairs cp (i + 1) rest
    else candPairs cp (i + 1) rest

/-- Among candidate `(position, parts)` pairs, the one with the most
parts, ties broken by earliest position: a later candidate displaces an
earlier one only when it has strictly more parts. -/
def pickBest : List (Nat × Nat) → Option (Nat × Nat)
  | [] => none
  | (j, n) :: rest =>
    match pickBest rest with
    | some (k, m) => if n < m then some (k, m) else some (j, n)
    | none => some (j, n)

/-- The capture-resolution contract as the specification words it:
candidates are the highlight names all of whose parts occur among the
capture's parts; among candidates the most parts wins, ties broken by
earliest list position; absent if there is no candidate. -/
def resolveHighlightSpec (highlight_names : List String) (capture_name : String) : Option Nat :=
  (pickBest (candPairs (splitParts capture_name.data) 0 highlight_names)).map (fun p => p.1)

/-- Model of the whole `highlight_indices` vector (lib.rs lines 207-233). -/
def highlight_indices (highlight_names capture_names : List String) : List (Option Nat) :=
  capture_names.map (resolveHighlight highlight_names)

/-! ### Configuration, local scopes, layers -/

/-- Model of `ops::Range<usize>` (as produced by `Node::byte_range`). -/
structure OpsRange where
  rstart : Nat
  rend : Nat
  deriving DecidableEq

/-- `Node::byte_range()`. -/
def NodeRef.byte_range (n : NodeRef) : OpsRange :=
  ⟨n.range.start_byte, n.range.end_byte⟩

/-- Model of the fields of `HighlightConfiguration` that the iterator
consults.  `property_settings` models `Query::property_settings(i)`:
the list of `#set!` key/value pairs attached to pattern `i`. -/
structure ConfigModel where
  locals_pattern_index : Nat
  highlights_pattern_index : Nat
  highlight_indices : List (Option Nat)
  non_local_variable_patterns : List Bool
  injection_site_capture_index : Option Nat
  injection_content_capture_index : Option Nat
  injection_language_capture_index : Option Nat
  local_scope_capture_index : Option Nat
  local_def_capture_index : Option Nat
  local_def_value_capture_index : Option Nat
  local_ref_capture_index : Option Nat
  property_settings : Nat → List (String × Option String)

/-- Model of `struct LocalDef` (lib.rs lines 89-93). -/
structure LocalDefM where
  name : String
  value_range : OpsRange
  highlight : Option Nat
  deriving DecidableEq

/-- Model of `struct LocalScope` (lib.rs lines 96-100).  `local_defs` keeps
the newest definition at the head (Rust keeps it at the back and iterates
with `.rev()`). -/
structure LocalScopeM where
  inherits : Bool
  range : OpsRange
  local_defs : List LocalDefM
  deriving DecidableEq

/-- The `find_map` over one scope's definitions, newest first (lib.rs lines
796-802): accept the first definition whose name equals the reference text
and whose `value_range.end` is at most the reference start.  Returns
`some d.highlight` on acceptance. -/
def findDefHighlight (name : String) (range_start : Nat) : List LocalDefM → Option (Option Nat)
  | [] => none
  | d :: rest =>
    if d.name == name && decide (range_start ≥ d.value_range.rend) then some d.highlight
    else findDefHighlight name range_start rest

/-- The scope-stack walk of lib.rs lines 794-810: scan scopes from the top;
on a hit, stop with the definition's highlight; descend past a scope only
if it inherits. -/
def lookupLocalDef (name : String) (range_start : Nat) : List LocalScopeM → Option (Option Nat)
  | [] => none
  | scope :: rest =>
    match findDefHighlight name range_start scope.local_defs with
    | some h => some h
    | none => if scope.inherits then lookupLocalDef name range_start rest else none

/-- The whole `local.reference` resolution (lib.rs lines 793-811): decode
the reference bytes; on invalid UTF-8 resolve to no definition, otherwise
search the scope stack.  `some h` means a definition was accepted and its
(optional) highlight is `h`; `none` means no definition. -/
def resolveReference (source : List Nat) (stack : List LocalScopeM) (range : OpsRange) :
    Option (Option Nat) :=
  match from_utf8 (sliceBytes source range.rstart range.rend) with
  | some name => lookupLocalDef name range.rstart stack
  | none => none

/-- The scopes visited by the search as the specification words it: all
scopes from the top down to and including the first non-inheriting one. -/
def scopesSearched : List LocalScopeM → List LocalScopeM
  | [] => []
  | s :: rest => if s.inherits then s :: scopesSearched rest else [s]

/-- `local.reference` resolution stated from the specification's words:
scan the scope stack top to bottom, within each scope the definitions
newest first, stopping the descent at the first non-inheriting scope;
accept the first definition whose name equals the reference text and whose
`value_range.end ≤ reference.start`; on invalid UTF-8 no definition. -/
def resolveReferenceSpec (source : List Nat) (stack : List LocalScopeM) (range : OpsRange) :
    Option (Option Nat) :=
  match from_utf8 (sliceBytes source range.rstart range.rend) with
  | none => none
  | some name =>
    ((((scopesSearched stack).map (fun s => s.local_defs)).flatten).find?
        (fun d => d.name == name && decide (d.value_range.rend ≤ range.rstart))).map
      (fun d => d.highlight)

/-- Model of `struct HighlightIterLayer` (lib.rs lines 118-127).  The parse
tree is never inspected by the embedded control flow and is omitted; the
query cursor is represented by an identity so that cursor pooling is
observable.  `highlight_end_stack` and `scope_stack` keep their top
element at the head. -/
structure LayerM where
  cursor : Nat
  captures : List StreamItem
  config : ConfigModel
  highlight_end_stack : List Nat
  scope_stack : List LocalScopeM
  ranges : List RangeM
  depth : Nat

/-- Model of `HighlightIterLayer::sort_key` (lib.rs lines 464-483). -/
def sortKey (l : LayerM) : Option (Nat × Bool × Int) :=
  let depth : Int := -(l.depth : Int)
  let next_start := l.captures.head?.map (fun it => it.cap.node.range.start_byte)
  let next_end := l.highlight_end_stack.head?
  match next_start, next_end with
  | some s, some e => if s < e then some (s, true, depth) else some (e, false, depth)
  | some i, none => some (i, true, depth)
  | none, some j => some (j, false, depth)
  | none, none => none

/-- Rust orders `bool` with `false < true`. -/
def boolLt (a b : Bool) : Bool := !a && b

/-- Rust's lexicographic order on `(usize, bool, isize)` triples, as used
on sort keys by `sort_layers` and `insert_layer`. -/
def keyLt (k1 k2 : Nat × Bool × Int) : Bool :=
  decide (k1.1 < k2.1) ||
    (k1.1 == k2.1 && (boolLt k1.2.1 k2.2.1 ||
      (k1.2.1 == k2.2.1 && decide (k1.2.2 < k2.2.2))))

/-- Rust's order on `Option` sort keys: `None` is below every `Some`. -/
def keyLtOpt : Option (Nat × Bool × Int) → Option (Nat × Bool × Int) → Bool
  | none, none => false
  | none, some _ => true
  | some _, none => false
  | some a, some b => keyLt a b

/-- Model of the mutable fields of `HighlightIter` (lib.rs lines 102-116).
`cursor_pool` models `context.cursors`, the pool to which retired layers
return their query cursors. -/
structure IterState where
  source : List Nat
  byte_offset : Nat
  cancellation_flag : Option Nat
  layers : List LayerM
  iter_count : Nat
  next_event : Option HighlightEvent
  last_highlight_range : Option (Nat × Nat × Nat)
  cursor_pool : List Nat

/-- The `while i + 1 < self.layers.len()` scan of `sort_layers` (lib.rs
lines 512-521): the number of consecutive layers after the front whose
sort key is strictly below the front's. -/
def tailCount (key : Nat × Bool × Int) : List LayerM → Nat
  | [] => 0
  | l :: rest =>
    match sortKey l with
    | some k => if keyLt k key then 1 + tailCount key rest else 0
    | none => 0

/-- Model of `HighlightIter::sort_layers` (lib.rs lines 510-529): if the
front layer still has a sort key, rotate it past the consecutive strictly
smaller layers; otherwise retire the front layer, returning its cursor to
the pool.  The`self.layers[0]` access requires a front layer; all call
sites have one, and on an empty list the model is the identity. -/
def sortLayersState (s : IterState) : IterState :=
  match s.layers with
  | [] => s
  | front :: rest =>
    match sortKey front with
    | some key =>
      let i := tailCount key rest
      if 0 < i then
        { s with layers := (s.layers.take (i + 1)).rotate 1 ++ s.layers.drop (i + 1) }
      else s
    | none =>
      { s with layers := rest, cursor_pool := s.cursor_pool ++ [front.cursor] }

/-- The scan from index 1 of `HighlightIter::insert_layer` (lib.rs lines
533-541): insert before the first layer whose sort key exceeds the new
layer's, else push at the back. -/
def insertFrom (key : Option (Nat × Bool × Int)) (layer : LayerM) : List LayerM → List LayerM
  | [] => [layer]
  | l :: ls => if keyLtOpt key (sortKey l) then layer :: l :: ls else l :: insertFrom key layer ls

/-- Model of `HighlightIter::insert_layer` (lib.rs lines 531-542).  The
scan starts at index 1, so the front layer is never displaced. -/
def insertLayerState (s : IterState) (layer : LayerM) : IterState :=
  match s.layers with
  | [] => { s with layers := [layer] }
  | front :: rest => { s with layers := front :: insertFrom (sortKey layer) layer rest }

/-- Model of `HighlightIter::emit_event` (lib.rs lines 490-508): when the
byte cursor is strictly behind `offset`, yield the intervening source span
and buffer `event` in `next_event`; otherwise yield `event` itself.  Both
paths end with `sort_layers`. -/
def emit_event (s : IterState) (offset : Nat) (event : Option HighlightEvent) :
    Option (Except ErrorM HighlightEvent) × IterState :=
  if s.byte_offset < offset then
    (some (Except.ok (HighlightEvent.Source s.byte_offset offset)),
      sortLayersState { s with byte_offset := offset, next_event := event })
  else
    (event.map Except.ok, sortLayersState s)

/-! ### Range intersection for injections

Model of `HighlightIterLayer::intersect_ranges` (lib.rs lines 381-459). -/

/-- The inner `while parent_range.start_byte <= range.end_byte` loop of
`intersect_ranges` (lib.rs lines 424-455).  Returns the grown result list
and, unless the parent-range iterator was exhausted (the early
`return result`), the current parent range and the ranges still to be
drawn from the iterator. -/
def intersectLoop (range parent : RangeM) (rest result : List RangeM) :
    List RangeM × Option (RangeM × List RangeM) :=
  if parent.start_byte ≤ range.end_byte then
    if range.start_byte < parent.end_byte then
      let range1 :=
        if range.start_byte < parent.start_byte then
          { range with start_byte := parent.start_byte }
        else range
      if parent.end_byte < range1.end_byte then
        let result1 :=
          if range1.start_byte < parent.end_byte then
            result ++ [⟨range1.start_byte, parent.end_byte⟩]
          else result
        let range2 : RangeM := ⟨parent.end_byte, range1.end_byte⟩
        match rest with
        | next :: rest2 => intersectLoop range2 next rest2 result1
        | [] => (result1, none)
      else
        let result1 :=
          if range1.start_byte < range1.end_byte then result ++ [range1] else result
        (result1, some (parent, rest))
    else
      match rest with
      | next :: rest2 => intersectLoop range next rest2 result
      | [] => (result, none)
  else (result, some (parent, rest))

/-- The `for excluded_range in …` loop of `intersect_ranges` (lib.rs lines
401-456), threading `preceding_range` and the parent-range iterator. -/
def excludedLoop : List RangeM → RangeM → RangeM → List RangeM → List RangeM →
    List RangeM × Option (RangeM × List RangeM)
  | [], _, parent, rest, result => (result, some (parent, rest))
  | excluded :: more, preceding, parent, rest, result =>
    let range : RangeM := ⟨preceding.end_byte, excluded.start_byte⟩
    if range.end_byte < parent.start_byte then
      excludedLoop more excluded parent rest result
    else
      match intersectLoop range parent rest result with
      | (result1, some (parent1, rest1)) => excludedLoop more excluded parent1 rest1 result1
      | (result1, none) => (result1, none)

/-- The `for node in nodes.iter()` loop of `intersect_ranges` (lib.rs lines
387-457).  With `includes_children` the children are not excluded;
otherwise each child's range is excluded, and the pseudo-range following
the node is always excluded. -/
def nodesLoop (includes_children : Bool) :
    List NodeRef → RangeM → List RangeM → List RangeM → List RangeM
  | [], _, _, result => result
  | node :: more, parent, rest, result =>
    let preceding : RangeM := ⟨0, node.range.start_byte⟩
    let following : RangeM := ⟨node.range.end_byte, USIZE_MAX⟩
    let excluded := (if includes_children then [] else node.child_ranges) ++ [following]
    match excludedLoop excluded preceding parent rest result with
    | (result1, some (parent1, rest1)) => nodesLoop includes_children more parent1 rest1 result1
    | (result1, none) => result1

/-- Model of `HighlightIterLayer::intersect_ranges` (lib.rs lines 381-459).
Returns `none` when the layer's `ranges` vector is empty, where the source
fails its `expect("Layers should only be constructed with non-empty ranges
vectors")`. -/
def intersect_ranges (parent_ranges : List RangeM) (nodes : List NodeRef)
    (includes_children : Bool) : Option (List RangeM) :=
  match parent_ranges with
  | [] => none
  | p :: ps => some (nodesLoop includes_children nodes p ps [])

/-! ### Injection gathering

Model of the grouping of injection sub-captures in `HighlightIter::next`
(lib.rs lines 659-708). -/

/-- One entry of the `injections` vector:
`(pattern_index, language, content nodes, include_children)`. -/
structure InjEntry where
  pattern_index : Nat
  lang : Option String
  content : List NodeRef
  include_children : Bool
  deriving DecidableEq

/-- The `for capture in mat.captures` loop (lib.rs lines 674-685): a
capture at the site index that is not the site node breaks the loop; the
first `injection.language` capture whose text decodes sets the language;
`injection.content` captures are appended. -/
def injCaptureLoop (siteIdx langIdx contentIdx : Option Nat) (source : List Nat)
    (site : NodeRef) : InjEntry → List QCapture → InjEntry
  | e, [] => e
  | e, cap :: rest =>
    if some cap.index == siteIdx then
      if cap.node ≠ site then e
      else injCaptureLoop siteIdx langIdx contentIdx source site e rest
    else if some cap.index == langIdx && e.lang.isNone then
      injCaptureLoop siteIdx langIdx contentIdx source site
        { e with lang := utf8Text source cap.node } rest
    else if some cap.index == contentIdx then
      injCaptureLoop siteIdx langIdx contentIdx source site
        { e with content := e.content ++ [cap.node] } rest
    else injCaptureLoop siteIdx langIdx contentIdx source site e rest

/-- Apply `f` to the first entry with the given pattern index
(`injections.iter_mut().find(|e| e.0 == mat.pattern_index)`). -/
def updateEntry (p : Nat) (f : InjEntry → InjEntry) : List InjEntry → List InjEntry
  | [] => []
  | e :: rest => if e.pattern_index == p then f e :: rest else e :: updateEntry p f rest

/-- The grouping loop over the injections-only query's matches (lib.rs
lines 659-686): find or append the entry for the match's pattern index,
then process the match's captures into it. -/
def gatherInjections (siteIdx langIdx contentIdx : Option Nat) (source : List Nat)
    (site : NodeRef) (mats : List QMatch) : List InjEntry :=
  mats.foldl
    (fun injections mat =>
      let injections :=
        if injections.any (fun e => e.pattern_index == mat.pattern_index) then injections
        else injections ++ [⟨mat.pattern_index, none, [], false⟩]
      updateEntry mat.pattern_index
        (fun e => injCaptureLoop siteIdx langIdx contentIdx source site e mat.captures)
        injections)
    []

/-- The `for prop in …property_settings(*pattern_index)` loop (lib.rs
lines 689-707): a `#set! injection.language` property fills the language
only when none was harvested; `#set! injection.include-children` sets the
flag. -/
def applyInjectionProps (props : List (String × Option String)) (e : InjEntry) : InjEntry :=
  props.foldl
    (fun e kv =>
      if kv.1 == "injection.language" then
        if e.lang.isNone then { e with lang := kv.2 } else e
      else if kv.1 == "injection.include-children" then
        { e with include_children := true }
      else e)
    e

/-- The property loop applied to every entry (lib.rs lines 688-708). -/
def applyAllInjectionProps (cfg : ConfigModel) (entries : List InjEntry) : List InjEntry :=
  entries.map (fun e => applyInjectionProps (cfg.property_settings e.pattern_index) e)

/-! ### The iterator's `next`

Model of `HighlightIter::next` (lib.rs lines 551-893).  The external
collaborators declared out of scope by the specification — the tree
parser and the query engine — appear as oracles: `injection_matches`
models running the injections-only query rooted at a site node;
`injection_callback` models the caller's language-resolution callback;
`new_layer` models `HighlightIterLayer::new` (which parses the injected
ranges; it also draws a cursor from the pool internally).

`nextStep` performs ONE iteration of the `loop`; its result is either a
yielded item (`Some(...)` in Rust), termination (`None`), or another trip
around the loop.  A panic of the Rust code (an `expect`/`unwrap` failure
or an out-of-bounds index) is modelled as the overall result `none`. -/

structure Oracles where
  injection_matches : ConfigModel → NodeRef → List QMatch
  injection_callback : String → Bool
  new_layer : String → Nat → List RangeM → Except ErrorM LayerM

inductive StepResult where
  | yield (r : Except ErrorM HighlightEvent) (s : IterState)
  | halt (s : IterState)
  | again (s : IterState)

/-- Wrap `return self.emit_event(...)`: the `Option` result of
`emit_event` is the iterator's own `Option` item. -/
def emitToStep (p : Option (Except ErrorM HighlightEvent) × IterState) : StepResult :=
  match p with
  | (some r, s) => .yield r s
  | (none, s) => .halt s

/-- `match_.captures.iter().find_map(...)` for the `injection.site`
capture (lib.rs lines 627-633). -/
def findSiteNode (siteIdx : Option Nat) : List QCapture → Option NodeRef
  | [] => none
  | c :: rest => if some c.index == siteIdx then some c.node else findSiteNode siteIdx rest

/-- The drain loop (lib.rs lines 640-652): remove subsequent matches for
the same injection site.  `remove()` on a match filters every later
stream item of that match. -/
def drainSameSiteGo (siteIdx : Option Nat) (locals_pattern_index : Nat) (site : NodeRef) :
    Nat → List StreamItem → List StreamItem
  | 0, l => l
  | _ + 1, [] => []
  | fuel + 1, it :: rest =>
    if it.m.pattern_index < locals_pattern_index &&
        it.m.captures.any (fun c => some c.index == siteIdx && c.node == site) then
      drainSameSiteGo siteIdx locals_pattern_index site fuel
        (rest.filter (fun it2 => it2.m.id ≠ it.m.id))
    else it :: rest

def drainSameSite (siteIdx : Option Nat) (locals_pattern_index : Nat) (site : NodeRef)
    (l : List StreamItem) : List StreamItem :=
  drainSameSiteGo siteIdx locals_pattern_index site l.length l

/-- The layer-creation loop over the gathered injection groups (lib.rs
lines 710-729): for each group with a resolvable language and a non-empty
content-node list, construct a nested layer over the intersected ranges
and splice it in; a construction error is returned as the next item.
`none` models a panic (`self.layers[0]` missing, or `intersect_ranges`
failing its non-empty-ranges `expect`). -/
def createLayers (o : Oracles) : List InjEntry → IterState → Option (Option ErrorM × IterState)
  | [], s => some (none, s)
  | e :: rest, s =>
    match e.lang with
    | none => createLayers o rest s
    | some lname =>
      if o.injection_callback lname then
        if e.content.isEmpty then createLayers o rest s
        else
          match s.layers.head? with
          | none => none
          | some front =>
            match intersect_ranges front.ranges e.content e.include_children with
            | none => none
            | some ranges =>
              match o.new_layer lname (front.depth + 1) ranges with
              | Except.ok layer => createLayers o rest (insertLayerState s layer)
              | Except.error err => some (some err, s)
      else createLayers o rest s

/-- The injection branch of `next` (lib.rs lines 620-735).  `front` is the
front layer (scope stack already updated), `match_` the peeked match. -/
def injectionBranch (o : Oracles) (s : IterState) (front : LayerM)
    (rest_layers : List LayerM) (match_ : QMatch) : Option StepResult :=
  let siteIdx := front.config.injection_site_capture_index
  let contentIdx := front.config.injection_content_capture_index
  let langIdx := front.config.injection_language_capture_index
  let site_node := findSiteNode siteIdx match_.captures
  let caps1 := (front.captures.tail).filter (fun it => it.m.id ≠ match_.id)
  match site_node with
  | none => some (.again { s with layers := { front with captures := caps1 } :: rest_layers })
  | some site =>
    let caps2 := drainSameSite siteIdx front.config.locals_pattern_index site caps1
    let front1 := { front with captures := caps2 }
    let s1 := { s with layers := front1 :: rest_layers }
    let mats := o.injection_matches front1.config site
    let injections := gatherInjections siteIdx langIdx contentIdx s1.source site mats
    let injections := applyAllInjectionProps front1.config injections
    match createLayers o injections s1 with
    | none => none
    | some (some err, s2) => some (.yield (Except.error err) s2)
    | some (none, s2) => some (.again (sortLayersState s2))

/-- Scope maintenance (lib.rs lines 615-617): pop local scopes that ended
before the capture starts.  The `last().unwrap()` on an empty stack is a
panic, modelled as `none`. -/
def popScopes (range_start : Nat) : List LocalScopeM → Option (List LocalScopeM)
  | [] => none
  | sc :: rest =>
    if sc.range.rend < range_start then popScopes range_start rest
    else some (sc :: rest)

/-- The `#set! local.scope-inherits` property fold when pushing a scope
(lib.rs lines 753-761). -/
def localScopeProps (cfg : ConfigModel) (pattern_index : Nat) (scope : LocalScopeM) :
    LocalScopeM :=
  (cfg.property_settings pattern_index).foldl
    (fun sc kv =>
      if kv.1 == "local.scope-inherits" then
        { sc with inherits := (kv.2.map (fun v => v == "true")).getD true }
      else sc)
    scope

/-- The search for the `local.definition-value` capture of the same match
(lib.rs lines 771-776); the last one wins, default `0..0`. -/
def defValueRange (valueIdx : Option Nat) (captures : List QCapture) : OpsRange :=
  captures.foldl (fun vr c => if some c.index == valueIdx then c.node.byte_range else vr) ⟨0, 0⟩

/-- Result of the local-variable tracking loop: the current capture, its
match's captures and pattern index, the remaining stream, the updated
scope stack, `reference_highlight`, and whether `definition_highlight`
holds a handle.  In the source `definition_highlight` is
`Option<&mut Option<Highlight>>`; whenever it is `Some` it aliases the
`highlight` field of the newest definition of the top scope (it is set
right after that definition is pushed and cleared whenever a new scope is
pushed), so it is modelled as that boolean fact, and the eventual write
through it targets exactly that field. -/
structure LocalsOut where
  capture : QCapture
  captures : List QCapture
  pattern_index : Nat
  stream : List StreamItem
  scope_stack : List LocalScopeM
  reference_highlight : Option Nat
  definition_highlight : Bool

/-- The `while pattern_index < layer.config.highlights_pattern_index` loop
of `next` (lib.rs lines 743-831): process `local.scope`,
`local.definition` and `local.reference` captures, coalescing further
captures on the same node.  `none` models the `last_mut().unwrap()` panic
on an empty scope stack. -/
def localsLoop (cfg : ConfigModel) (source : List Nat) (range : OpsRange) :
    QCapture → List QCapture → Nat → List StreamItem → List LocalScopeM →
    Option Nat → Bool → Option LocalsOut
  | capture, captures, pattern_index, stream, scopes, ref_h, def_h =>
    if pattern_index < cfg.highlights_pattern_index then
      let step :
          Option (List LocalScopeM × Option Nat × Bool) :=
        if some capture.index == cfg.local_scope_capture_index then
          let scope0 : LocalScopeM := { inherits := true, range := range, local_defs := [] }
          let scope1 := localScopeProps cfg pattern_index scope0
          some (scope1 :: scopes, ref_h, false)
        else if some capture.index == cfg.local_def_capture_index then
          match scopes with
          | [] => none
          | top :: restScopes =>
            let value_range := defValueRange cfg.local_def_value_capture_index captures
            match from_utf8 (sliceBytes source range.rstart range.rend) with
            | some name =>
              some ({ top with
                        local_defs := ⟨name, value_range, none⟩ :: top.local_defs } :: restScopes,
                    none, true)
            | none => some (top :: restScopes, none, false)
        else if some capture.index == cfg.local_ref_capture_index then
          if def_h then some (scopes, ref_h, def_h)
          else
            let rh :=
              match resolveReference source scopes range with
              | some h => h
              | none => ref_h
            some (scopes, rh, def_h)
        else some (scopes, ref_h, def_h)
      match step with
      | none => none
      | some (scopes1, ref1, def1) =>
        match stream with
        | it :: restStream =>
          if it.cap.node == capture.node then
            localsLoop cfg source range it.cap it.m.captures it.m.pattern_index
              restStream scopes1 ref1 def1
          else some ⟨capture, captures, pattern_index, stream, scopes1, ref1, def1⟩
        | [] => some ⟨capture, captures, pattern_index, [], scopes1, ref1, def1⟩
    else some ⟨capture, captures, pattern_index, stream, scopes, ref_h, def_h⟩

/-- The duplicate-suppression / `#not-local!` skip loop (lib.rs lines
842-858). -/
def nonLocalSkip (cfg : ConfigModel) (def_or_ref : Bool) :
    Bool → QCapture → Nat → List StreamItem → Bool × QCapture × Nat × List StreamItem
  | has_highlight, capture, pattern_index, stream =>
    if has_highlight && def_or_ref &&
        cfg.non_local_variable_patterns.getD pattern_index false then
      match stream with
      | it :: rest =>
        if it.cap.node == capture.node then
          nonLocalSkip cfg def_or_ref true it.cap it.m.pattern_index rest
        else (false, capture, pattern_index, stream)
      | [] => (false, capture, pattern_index, [])
    else (has_highlight, capture, pattern_index, stream)

/-- The shadowed-capture skip loop (lib.rs lines 866-872). -/
def skipSameNode (node : NodeRef) : List StreamItem → List StreamItem
  | [] => []
  | it :: rest => if it.cap.node == node then skipSameNode node rest else it :: rest

/-- Write a highlight through `definition_highlight` (lib.rs lines
878-880): into the newest definition of the top scope.  Unreachable
fall-through cases leave the stack unchanged. -/
def writeDefHighlight (h : Option Nat) : List LocalScopeM → List LocalScopeM
  | [] => []
  | top :: rest =>
    match top.local_defs with
    | [] => top :: rest
    | d :: ds => { top with local_defs := { d with highlight := h } :: ds } :: rest

/-- The part of the loop body from scope maintenance onward (lib.rs lines
606-891), for a front layer with a peeked stream item. -/
def mainBranch (o : Oracles) (s : IterState) (front : LayerM) (rest_layers : List LayerM)
    (item : StreamItem) : Option StepResult :=
  let match_ := item.m
  let pattern_index := match_.pattern_index
  let capture := item.cap
  let range := capture.node.byte_range
  match popScopes range.rstart front.scope_stack with
  | none => none
  | some scopes0 =>
    let front := { front with scope_stack := scopes0 }
    if pattern_index < front.config.locals_pattern_index then
      injectionBranch o s front rest_layers match_
    else
      let stream0 := front.captures.tail
      match localsLoop front.config s.source range capture match_.captures pattern_index
          stream0 scopes0 none false with
      | none => none
      | some out =>
        let hh0 : Bool :=
          match s.last_highlight_range with
          | some (ls, le, ld) =>
            !(range.rstart == ls && range.rend == le && front.depth < ld)
          | none => true
        let skipped :=
          nonLocalSkip front.config
            (out.definition_highlight || out.reference_highlight.isSome)
            hh0 out.capture out.pattern_index out.stream
        let hh := skipped.1
        let capture1 := skipped.2.1
        let stream1 := skipped.2.2.2
        if hh then
          let stream2 := skipSameNode capture1.node stream1
          let current_highlight := front.config.highlight_indices.getD capture1.index none
          let scopes1 :=
            if out.definition_highlight then writeDefHighlight current_highlight out.scope_stack
            else out.scope_stack
          match out.reference_highlight.or current_highlight with
          | some h =>
            let front1 := { front with
                            captures := stream2, scope_stack := scopes1,
                            highlight_end_stack := range.rend :: front.highlight_end_stack }
            let s1 := { s with
                        layers := front1 :: rest_layers,
                        last_highlight_range := some (range.rstart, range.rend, front.depth) }
            some (emitToStep (emit_event s1 range.rstart (some (.HighlightStart h))))
          | none =>
            let front1 := { front with captures := stream2, scope_stack := scopes1 }
            some (.again (sortLayersState { s with layers := front1 :: rest_layers }))
        else
          let front1 := { front with captures := stream1, scope_stack := out.scope_stack }
          some (.again (sortLayersState { s with layers := front1 :: rest_layers }))

/-- Steps 3 onward of one loop iteration (lib.rs lines 570-891): handle
the empty-layers termination, the captureless front layer, the pending
highlight-end precedence, and otherwise the main branch. -/
def afterCancellation (o : Oracles) (s : IterState) : Option StepResult :=
  match s.layers with
  | [] =>
    if s.byte_offset < s.source.length then
      some (.yield (Except.ok (.Source s.byte_offset s.source.length))
        { s with byte_offset := s.source.length })
    else some (.halt s)
  | front :: rest_layers =>
    match front.captures with
    | [] =>
      match front.highlight_end_stack with
      | e :: es =>
        let s1 := { s with layers := { front with highlight_end_stack := es } :: rest_layers }
        some (emitToStep (emit_event s1 e (some .HighlightEnd)))
      | [] => some (emitToStep (emit_event s s.source.length none))
    | item :: _ =>
      let range := item.cap.node.byte_range
      match front.highlight_end_stack with
      | e :: es =>
        if e ≤ range.rstart then
          let s1 := { s with layers := { front with highlight_end_stack := es } :: rest_layers }
          some (emitToStep (emit_event s1 e (some .HighlightEnd)))
        else mainBranch o s front rest_layers item
      | [] => mainBranch o s front rest_layers item

/-- One iteration of the `loop` in `HighlightIter::next` (lib.rs lines
552-892): the buffered event, then the cancellation poll, then the rest. -/
def nextStep (o : Oracles) (s : IterState) : Option StepResult :=
  match s.next_event with
  | some e => some (.yield (Except.ok e) { s with next_event := none })
  | none =>
    match s.cancellation_flag with
    | some flag =>
      let ic := s.iter_count + 1
      if CANCELLATION_CHECK_INTERVAL ≤ ic then
        let s1 := { s with iter_count := 0 }
        if flag ≠ 0 then some (.yield (Except.error .Cancelled) s1)
        else afterCancellation o s1
      else afterCancellation o { s with iter_count := ic }
    | none => afterCancellation o s

instance : DecidableEq (Except ErrorM HighlightEvent) := fun a b =>
  match a, b with
  | .ok x, .ok y =>
    match decEq x y with
    | isTrue h => isTrue (by rw [h])
    | isFalse h => isFalse (by intro hh; cases hh; exact h rfl)
  | .ok _, .error _ => isFalse (by intro hh; cases hh)
  | .error _, .ok _ => isFalse (by intro hh; cases hh)
  | .error x, .error y =>
    match decEq x y with
    | isTrue h => isTrue (by rw [h])
    | isFalse h => isFalse (by intro hh; cases hh; exact h rfl)

/-- Observable outcome of one call to `next()`. -/
inductive NextOutcome where
  | yielded (r : Except ErrorM HighlightEvent)
  | finished
  | fuelOut
  | panicked
  deriving DecidableEq

/-- Run the loop of `next()` to its next exit, with fuel bounding the
number of iterations. -/
def nextFuel : Nat → Oracles → IterState → NextOutcome × IterState
  | 0, _, s => (.fuelOut, s)
  | fuel + 1, o, s =>
    match nextStep o s with
    | none => (.panicked, s)
    | some (.yield r s1) => (.yielded r, s1)
    | some (.halt s1) => (.finished, s1)
    | some (.again s1) => nextFuel fuel o s1

/-- The layer state built by `HighlightIterLayer::new` (lib.rs lines
354-367): empty end stack and the root local scope
`{ inherits: false, range: 0..usize::MAX, local_defs: [] }`. -/
def newLayerState (cursor : Nat) (captures : List StreamItem) (cfg : ConfigModel)
    (ranges : List RangeM) (depth : Nat) : LayerM :=
  { cursor := cursor, captures := captures, config := cfg,
    highlight_end_stack := [],
    scope_stack := [{ inherits := false, range := ⟨0, USIZE_MAX⟩, local_defs := [] }],
    ranges := ranges, depth := depth }

/-- The iterator state built by `Highlighter::highlight` (lib.rs lines
292-320). -/
def initState (source : List Nat) (flag : Option Nat) (layer : LayerM) (pool : List Nat) :
    IterState :=
  { source := source, byte_offset := 0, cancellation_flag := flag, layers := [layer],
    iter_count := 0, next_event := none, last_highlight_range := none, cursor_pool := pool }

/-! ### Specification-side helpers for the remaining claims -/

/-- No `Source` event is sitting in the `next_event` buffer.  `emit_event`
only ever buffers the highlight event passed to it, which at every call
site is a `HighlightStart`, a `HighlightEnd` or nothing, so this is an
invariant of every reachable iterator state. -/
def noBufferedSource (s : IterState) : Prop :=
  ∀ a b, s.next_event ≠ some (.Source a b)

/-- The no-empty-`Source` property of one step outcome: every `Source`
event the step yields has a strictly smaller start than end, and every
state the step leaves behind still has no buffered `Source`. -/
def sourceStepOk (r : Option StepResult) : Prop :=
  (∀ a b s1, r = some (.yield (Except.ok (.Source a b)) s1) → a < b) ∧
  (∀ x s1, r = some (.yield x s1) → noBufferedSource s1) ∧
  (∀ s1, r = some (.again s1) → noBufferedSource s1) ∧
  (∀ s1, r = some (.halt s1) → noBufferedSource s1)

/-- The text of the first `injection.language` capture with valid UTF-8 in
a processed capture list, as the claim words it; the walk stops at a
site-index capture for a different node exactly where the code's loop
breaks. -/
def firstValidLang (siteIdx langIdx : Option Nat) (source : List Nat) (site : NodeRef) :
    List QCapture → Option String
  | [] => none
  | cap :: rest =>
    if some cap.index == siteIdx then
      if cap.node ≠ site then none
      else firstValidLang siteIdx langIdx source site rest
    else if some cap.index == langIdx then
      match utf8Text source cap.node with
      | some t => some t
      | none => firstValidLang siteIdx langIdx source site rest
    else firstValidLang siteIdx langIdx source site rest

/-- The language contributed by the `#set!` properties alone: the value of
the first `injection.language` property that carries one. -/
def firstPropLang : List (String × Option String) → Option String
  | [] => none
  | kv :: rest =>
    if kv.1 == "injection.language" then
      match kv.2 with
      | some v => some v
      | none => firstPropLang rest
    else firstPropLang rest

/-! ### Concrete instances used by the theorems -/

/-- The combined query of the disabling counterexample. -/
def combinedQ : QueryModel := ⟨["injection.site", "injection.language", "function"], []⟩

/-- The injections-only query of the disabling counterexample. -/
def injectionsQ : QueryModel := ⟨["injection.site", "injection.language"], []⟩

/-- Oracles for runs that never reach an injection. -/
def noInjOracles : Oracles :=
  { injection_matches := fun _ _ => [],
    injection_callback := fun _ => false,
    new_layer := fun _ _ _ => Except.error .Unknown }

/-- A minimal configuration: one capture name that resolves to no
recognized highlight, no injection or locals patterns. -/
def plainCfg : ConfigModel :=
  { locals_pattern_index := 0, highlights_pattern_index := 0,
    highlight_indices := [none], non_local_variable_patterns := [false],
    injection_site_capture_index := none, injection_content_capture_index := none,
    injection_language_capture_index := none, local_scope_capture_index := none,
    local_def_capture_index := none, local_def_value_capture_index := none,
    local_ref_capture_index := none, property_settings := fun _ => [] }

/-- Stream item `i`: a one-capture match on the node spanning `[i, i+1)`. -/
def plainItem (i : Nat) : StreamItem := ⟨⟨i, 0, [⟨0, ⟨i, ⟨i, i + 1⟩, []⟩⟩]⟩, 0⟩

/-- A small run used to instantiate theorems with hypotheses. -/
def plainRun : IterState :=
  initState [97] none (newLayerState 0 [plainItem 0] plainCfg [⟨0, USIZE_MAX⟩] 0) []

/-! The cancellation run: a query that produces one zero-width highlight
capture per node, on 100 distinct nodes all spanning `[0, 0)`.  Every call
to `next()` performs exactly one inner loop iteration and yields
(`HighlightStart` and `HighlightEnd` alternate at offset 0), so with the
cancellation flag set from the start, the poll fires during the 100th
call. -/

/-- A configuration whose single capture name resolves to highlight 0. -/
def zCfg : ConfigModel := { plainCfg with highlight_indices := [some 0] }

/-- Stream item `k` of the cancellation run: one capture on node `k`,
which spans the empty byte range `[0, 0)`. -/
def zItem (k : Nat) : StreamItem := ⟨⟨k, 0, [⟨0, ⟨k, ⟨0, 0⟩, []⟩⟩]⟩, 0⟩

/-- `n` consecutive such stream items starting at node `k`. -/
def zItems : Nat → Nat → List StreamItem
  | 0, _ => []
  | n + 1, k => zItem k :: zItems n (k + 1)

/-- The root local scope of a fresh layer. -/
def rootScope : LocalScopeM := { inherits := false, range := ⟨0, USIZE_MAX⟩, local_defs := [] }

/-- The root layer of the cancellation run. -/
def zLayer0 : LayerM := newLayerState 0 (zItems 100 0) zCfg [⟨0, USIZE_MAX⟩] 0

/-- A state of the cancellation run with no pending highlight end: `n`
items left in the stream, the next node id `j`, the loop counter `c`. -/
def zStateA (n j c : Nat) (last : Option (Nat × Nat × Nat)) : IterState :=
  { source := [97], byte_offset := 0, cancellation_flag := some 1,
    layers := [{ cursor := 0, captures := zItems n j, config := zCfg,
                 highlight_end_stack := [], scope_stack := [rootScope],
                 ranges := [⟨0, USIZE_MAX⟩], depth := 0 }],
    iter_count := c, next_event := none, last_highlight_range := last,
    cursor_pool := [] }

/-- A state of the cancellation run with one pending highlight end at
offset 0. -/
def zStateB (n j c : Nat) : IterState :=
  { source := [97], byte_offset := 0, cancellation_flag := some 1,
    layers := [{ cursor := 0, captures := zItems n j, config := zCfg,
                 highlight_end_stack := [0], scope_stack := [rootScope],
                 ranges := [⟨0, USIZE_MAX⟩], depth := 0 }],
    iter_count := c, next_event := none, last_highlight_range := some (0, 0, 0),
    cursor_pool := [] }

/-- A concrete layer with one capture starting at byte 5 and a pending
highlight end at byte 3. -/
def c6LayerA : LayerM :=
  { cursor := 0, captures := [plainItem 5], config := plainCfg,
    highlight_end_stack := [3], scope_stack := [rootScope],
    ranges := [⟨0, USIZE_MAX⟩], depth := 0 }

/-- A concrete layer with no captures and an empty end stack. -/
def c6LayerB : LayerM :=
  { cursor := 0, captures := [], config := plainCfg,
    highlight_end_stack := [], scope_stack := [rootScope],
    ranges := [⟨0, USIZE_MAX⟩], depth := 0 }

/-- The state reached after `n` calls to `next()` from `s`. -/
def callsFrom (o : Oracles) : Nat → IterState → IterState
  | 0, s => s
  | n + 1, s => (nextFuel 1 o (callsFrom o n s)).2

/-- Configuration of the empty-intersection injection scenario: pattern 0
is the injection pattern, pattern 1 a highlight pattern; capture 0 is
`injection.site`, capture 1 `injection.content`, capture 2
`injection.language`; a `#set!` property hard-codes the language `"x"`. -/
def injCfg : ConfigModel :=
  { locals_pattern_index := 1, highlights_pattern_index := 1,
    highlight_indices := [none, none, none, some 0],
    non_local_variable_patterns := [false, false],
    injection_site_capture_index := some 0, injection_content_capture_index := some 1,
    injection_language_capture_index := some 2, local_scope_capture_index := none,
    local_def_capture_index := none, local_def_value_capture_index := none,
    local_ref_capture_index := none,
    property_settings := fun i =>
      if i == 0 then [("injection.language", some "x")] else [] }

/-- The injection site node of the scenario. -/
def siteNode : NodeRef := ⟨10, ⟨5, 40⟩, []⟩

/-- The injection content node: it lies entirely outside the parent
layer's ranges. -/
def contentNode : NodeRef := ⟨11, ⟨20, 30⟩, []⟩

/-- The parent layer of the scenario: its `ranges` cover only `[0, 10)`;
its stream holds the injection match on the site node and, after it, an
ordinary highlight capture. -/
def injParentLayer : LayerM :=
  newLayerState 0
    [⟨⟨0, 0, [⟨0, siteNode⟩]⟩, 0⟩, ⟨⟨1, 1, [⟨3, ⟨12, ⟨50, 60⟩, []⟩⟩]⟩, 0⟩]
    injCfg [⟨0, 10⟩] 0

/-- Oracles of the scenario: the injections-only query yields one match
carrying the site and the content node; every language resolves; layer
construction succeeds and records the ranges and depth it was given
(cursor id 99). -/
def injOracles : Oracles :=
  { injection_matches := fun _ _ => [⟨5, 0, [⟨0, siteNode⟩, ⟨1, contentNode⟩]⟩],
    injection_callback := fun _ => true,
    new_layer := fun _ depth ranges => Except.ok (newLayerState 99 [] injCfg ranges depth) }

/-- A node whose text is the first source byte (used as an
`injection.language` capture). -/
def langNode : NodeRef := ⟨12, ⟨0, 1⟩, []⟩

/-- The scenario's run. -/
def injRun : IterState := initState (List.replicate 100 97) none injParentLayer []

/-- What one step of the scenario's run does: the per-layer ranges,
depths and cursor ids after the step (when the step loops). -/
def injObserved : Option (List (List RangeM) × List Nat × List Nat) :=
  match nextStep injOracles injRun with
  | some (.again s2) =>
    some (s2.layers.map (fun l => l.ranges), s2.layers.map (fun l => l.depth),
          s2.layers.map (fun l => l.cursor))
  | _ => none

/-! ## Theorems -/

/-! ### C1: which query has its captures disabled -/

theorem disable_foldl (names : List String) (q : QueryModel) :
    names.foldl
        (fun q name => if name ≠ "injection.site" then q.disable_capture name else q) q =
      { q with disabled := q.disabled ++ names.filter (fun n => n ≠ "injection.site") } := by
  induction names generalizing q with
  | nil => simp
  | cons n rest ih =>
    rw [List.foldl_cons, List.filter_cons]
    by_cases h : n = "injection.site"
    · rw [if_neg (not_not_intro h), if_neg (by simp [h])]
      exact ih q
    · rw [if_pos h, if_pos (by simp [h]), ih]
      simp [QueryModel.disable_capture]

/-- C1 counterexample: on a combined query with captures `injection.site`,
`injection.language`, `function` and an injections query with captures
`injection.site`, `injection.language` (none disabled yet), the combined
query does NOT keep all of its captures enabled (`injection.language` gets
disabled in it), and the injections-only query does NOT have its
non-`injection.site` capture disabled. -/
theorem c1_counterexample :
    ¬ ((load_configuration_disable combinedQ injectionsQ).1.disabled = []) ∧
    "injection.language" ∉ (load_configuration_disable combinedQ injectionsQ).2.disabled := by
  constructor
  · intro h
    simp [load_configuration_disable, combinedQ, injectionsQ,
          QueryModel.disable_capture] at h
  · simp [load_configuration_disable, injectionsQ]

/-- C1 (amended): after `load_configuration`'s disabling loop it is the
COMBINED query in which every capture name of the injections query other
than `injection.site` is disabled (appended in order to its previously
disabled names), while the injections-only query keeps all of its
captures enabled (it is returned untouched). -/
theorem c1_combined_query_disabling (q i : QueryModel) :
    (load_configuration_disable q i).2 = i ∧
    (load_configuration_disable q i).1.capture_names = q.capture_names ∧
    (load_configuration_disable q i).1.disabled =
      q.disabled ++ i.capture_names.filter (fun n => n ≠ "injection.site") := by
  refine ⟨rfl, ?_, ?_⟩
  · show (i.capture_names.foldl
        (fun q name => if name ≠ "injection.site" then q.disable_capture name else q)
        q).capture_names = q.capture_names
    rw [disable_foldl]
  · show (i.capture_names.foldl
        (fun q name => if name ≠ "injection.site" then q.disable_capture name else q)
        q).disabled = q.disabled ++ i.capture_names.filter (fun n => n ≠ "injection.site")
    rw [disable_foldl]

/-! ### C4: best-match capture resolution -/

theorem matchLoop_fst (cp : List (List Char)) (parts : List (List Char)) (acc : Nat) :
    (matchLoop cp parts acc).1 = parts.all (fun p => cp.contains p) := by
  induction parts generalizing acc with
  | nil => simp [matchLoop]
  | cons p rest ih =>
    rw [matchLoop, List.all_cons]
    cases h : cp.contains p with
    | true => simpa using ih (acc + 1)
    | false => simp

theorem matchLoop_snd (cp : List (List Char)) (parts : List (List Char)) (acc : Nat)
    (h : parts.all (fun p => cp.contains p) = true) :
    (matchLoop cp parts acc).2 = acc + parts.length := by
  induction parts generalizing acc with
  | nil => simp [matchLoop]
  | cons p rest ih =>
    rw [List.all_cons, Bool.and_eq_true] at h
    rw [matchLoop, if_pos h.1, ih _ h.2, List.length_cons]
    omega

theorem splitParts_ne_nil (l : List Char) : splitParts l ≠ [] := by
  induction l with
  | nil => simp [splitParts]
  | cons c rest ih =>
    simp only [splitParts]
    by_cases h : c = '.'
    · simp [h]
    · simp only [if_neg h]
      cases hr : splitParts rest with
      | nil => simp
      | cons p ps => simp

theorem numParts_pos (h : String) : 0 < numParts h := by
  unfold numParts
  exact List.length_pos.mpr (splitParts_ne_nil _)

theorem candPairs_pos (cp : List (List Char)) (l : List String) (i : Nat) (p : Nat × Nat)
    (hp : p ∈ candPairs cp i l) : 0 < p.2 := by
  induction l generalizing i with
  | nil => simp [candPairs] at hp
  | cons h rest ih =>
    simp only [candPairs] at hp
    by_cases hc : candB cp h
    · rw [if_pos hc] at hp
      rcases List.mem_cons.mp hp with h1 | h2
      · subst h1; exact numParts_pos h
      · exact ih _ h2
    · rw [if_neg hc] at hp
      exact ih _ hp

theorem pickBest_mem (l : List (Nat × Nat)) (p : Nat × Nat) (h : pickBest l = some p) :
    p ∈ l := by
  induction l generalizing p with
  | nil => simp [pickBest] at h
  | cons q rest ih =>
    rcases q with ⟨j, n⟩
    rw [pickBest] at h
    cases hr : pickBest rest with
    | none =>
      rw [hr] at h
      simp only [Option.some.injEq] at h
      simp [← h]
    | some r =>
      rcases r with ⟨k, m⟩
      rw [hr] at h
      simp only [] at h
      by_cases hm : n < m
      · rw [if_pos hm] at h
        simp only [Option.some.injEq] at h
        exact List.mem_cons_of_mem _ (ih _ (by rw [hr, h]))
      · rw [if_neg hm] at h
        simp only [Option.some.injEq] at h
        simp [← h]

theorem resolveGo_eq_pick (cp : List (List Char)) (suf : List String) :
    ∀ (i : Nat) (best : Option Nat) (blen : Nat),
      resolveGo cp suf i best blen =
        match pickBest (candPairs cp i suf) with
        | some p => if blen < p.2 then some p.1 else best
        | none => best := by
  induction suf with
  | nil => intro i best blen; rfl
  | cons h rest ih =>
    intro i best blen
    have hfst : (matchLoop cp (splitParts h.data) 0).1 = candB cp h := matchLoop_fst _ _ _
    by_cases hc : candB cp h = true
    · have hsnd : (matchLoop cp (splitParts h.data) 0).2 = numParts h := by
        rw [matchLoop_snd _ _ _ hc]; simp [numParts]
      rw [resolveGo, candPairs, if_pos hc, pickBest]
      simp only [hfst, hsnd, hc, Bool.true_and]
      by_cases hb : blen < numParts h
      · rw [if_pos (decide_eq_true hb), ih]
        cases hr : pickBest (candPairs cp (i + 1) rest) with
        | none =>
          simp only []
          rw [if_pos hb]
        | some r =>
          rcases r with ⟨k, m⟩
          simp only []
          by_cases hm : numParts h < m
          · rw [if_pos hm, if_pos hm]
            simp only []
            rw [if_pos (by omega)]
          · rw [if_neg hm, if_neg hm]
            simp only []
            rw [if_pos hb]
      · rw [if_neg (by simp [hb]), ih]
        cases hr : pickBest (candPairs cp (i + 1) rest) with
        | none =>
          simp only []
          rw [if_neg hb]
        | some r =>
          rcases r with ⟨k, m⟩
          simp only []
          by_cases hm : numParts h < m
          · rw [if_pos hm]
          · rw [if_neg hm]
            simp only []
            rw [if_neg hb, if_neg (by omega)]
    · rw [resolveGo, candPairs, if_neg hc]
      simp only [hfst]
      rw [if_neg (by simp [hc])]
      exact ih _ _ _

/-- C4: the computed highlight index follows the best-match contract: a
highlight name is a candidate iff every dot-separated part of it occurs
among the capture name's parts; among candidates the one with the most
parts wins, ties broken by earliest list position; absent when there is no
candidate (this is `resolveHighlightSpec`, and `resolveHighlight` — the
code's single pass — always agrees with it).  In particular, with names
`["function", "function.builtin"]`, capture `function.builtin.constructor`
resolves to `function.builtin` (index 1) and `function.method` resolves to
`function` (index 0). -/
theorem c4_best_match_resolution :
    (∀ (names : List String) (c : String),
        resolveHighlight names c = resolveHighlightSpec names c) ∧
    resolveHighlight ["function", "function.builtin"] "function.builtin.constructor" =
      some 1 ∧
    resolveHighlight ["function", "function.builtin"] "function.method" = some 0 := by
  refine ⟨?_, by decide, by decide⟩
  intro names c
  unfold resolveHighlight resolveHighlightSpec
  rw [resolveGo_eq_pick]
  cases hpb : pickBest (candPairs (splitParts c.data) 0 names) with
  | none => rfl
  | some p =>
    have hpos : 0 < p.2 := candPairs_pos _ _ _ _ (pickBest_mem _ _ hpb)
    simp [hpos]

/-! ### C5: local.reference resolution -/

theorem findDefHighlight_eq (name : String) (rs : Nat) (defs : List LocalDefM) :
    findDefHighlight name rs defs =
      (defs.find? (fun d => d.name == name && decide (d.value_range.rend ≤ rs))).map
        (fun d => d.highlight) := by
  induction defs with
  | nil => rfl
  | cons d rest ih =>
    rw [findDefHighlight]
    by_cases h : (d.name == name && decide (rs ≥ d.value_range.rend)) = true
    · rw [if_pos h]
      have hp : (fun (d : LocalDefM) => d.name == name &&
          decide (d.value_range.rend ≤ rs)) d = true := h
      rw [@List.find?_cons_of_pos LocalDefM
            (fun d => d.name == name && decide (d.value_range.rend ≤ rs)) d rest hp]
      rfl
    · rw [if_neg h]
      have hp : ¬ ((fun (d : LocalDefM) => d.name == name &&
          decide (d.value_range.rend ≤ rs)) d = true) := h
      rw [@List.find?_cons_of_neg LocalDefM
            (fun d => d.name == name && decide (d.value_range.rend ≤ rs)) d rest hp, ih]

theorem lookupLocalDef_eq (name : String) (rs : Nat) (stack : List LocalScopeM) :
    lookupLocalDef name rs stack =
      ((((scopesSearched stack).map (fun s => s.local_defs)).flatten).find?
          (fun d => d.name == name && decide (d.value_range.rend ≤ rs))).map
        (fun d => d.highlight) := by
  induction stack with
  | nil => rfl
  | cons sc rest ih =>
    by_cases hin : sc.inherits = true <;>
      cases hf : sc.local_defs.find?
          (fun d => d.name == name && decide (d.value_range.rend ≤ rs)) <;>
        simp [lookupLocalDef, scopesSearched, findDefHighlight_eq, hf, hin,
              List.find?_append, ih]

/-- C5: a `local.reference` capture is resolved exactly as specified:
scan the scope stack from the top down, within each scope the definitions
newest first, stopping the descent at the first non-inheriting scope;
accept the first definition whose name equals the reference's text and
whose `value_range.end ≤ reference.start`; and if the reference's bytes
are not valid UTF-8 the reference resolves to no definition. -/
theorem c5_local_reference_resolution :
    ∀ (source : List Nat) (stack : List LocalScopeM) (range : OpsRange),
      resolveReference source stack range = resolveReferenceSpec source stack range ∧
      (utf8Decode (sliceBytes source range.rstart range.rend) = none →
        resolveReference source stack range = none) := by
  intro source stack range
  constructor
  · rw [resolveReference, resolveReferenceSpec]
    cases h : from_utf8 (sliceBytes source range.rstart range.rend) with
    | none => rfl
    | some name => exact lookupLocalDef_eq name range.rstart stack
  · intro h
    rw [resolveReference]
    have h2 : from_utf8 (sliceBytes source range.rstart range.rend) = none := by
      rw [from_utf8, h]; rfl
    rw [h2]

/-- Witness for C5: on the single invalid byte `0xFF`, the code-side and
specification-side resolvers agree and the reference resolves to no
definition. -/
theorem c5_witness :
    resolveReference [255] [] ⟨0, 1⟩ = resolveReferenceSpec [255] [] ⟨0, 1⟩ ∧
    resolveReference [255] [] ⟨0, 1⟩ = none :=
  ⟨(c5_local_reference_resolution [255] [] ⟨0, 1⟩).1,
   (c5_local_reference_resolution [255] [] ⟨0, 1⟩).2 (by decide)⟩

/-! ### C6: layer sort keys and ordering -/

/-- C6: `sort_key` is `none` exactly when the layer has no next capture
and an empty pending-end stack, and `sort_layers` then retires the front
layer, returning its cursor to the pool; otherwise the key is
`(offset, is_start, -depth)` with `offset` the minimum of the next capture
start and the top pending end, describing an end (`is_start = false`)
whenever the pending end is at most the capture start; and under the
lexicographic key order, at equal offsets ends order before starts and
deeper layers order before shallower ones. -/
theorem c6_sort_key (l : LayerM) (s : IterState) :
    (sortKey l = none ↔ l.captures = [] ∧ l.highlight_end_stack = []) ∧
    (∀ it rest, l.captures = it :: rest → l.highlight_end_stack = [] →
      sortKey l = some (it.cap.node.range.start_byte, true, -(l.depth : Int))) ∧
    (∀ e es, l.captures = [] → l.highlight_end_stack = e :: es →
      sortKey l = some (e, false, -(l.depth : Int))) ∧
    (∀ it rest e es, l.captures = it :: rest → l.highlight_end_stack = e :: es →
      sortKey l = some (min it.cap.node.range.start_byte e,
        decide (it.cap.node.range.start_byte < e), -(l.depth : Int)) ∧
      (e ≤ it.cap.node.range.start_byte →
        sortKey l = some (e, false, -(l.depth : Int)))) ∧
    (∀ rest, s.layers = l :: rest → sortKey l = none →
      sortLayersState s =
        { s with layers := rest, cursor_pool := s.cursor_pool ++ [l.cursor] }) ∧
    (∀ off d, keyLt (off, false, d) (off, true, d) = true) ∧
    (∀ off b (d1 d2 : Nat), d2 < d1 →
      keyLt (off, b, -(d1 : Int)) (off, b, -(d2 : Int)) = true) := by
  refine ⟨?_, ?_, ?_, ?_, ?_, ?_, ?_⟩
  · unfold sortKey
    cases hc : l.captures <;> cases hs : l.highlight_end_stack <;> simp
    split <;> simp
  · intro it rest hc hs
    simp [sortKey, hc, hs]
  · intro e es hc hs
    simp [sortKey, hc, hs]
  · intro it rest e es hc hs
    constructor
    · by_cases hlt : it.cap.node.range.start_byte < e
      · simp [sortKey, hc, hs, hlt, Nat.min_eq_left (Nat.le_of_lt hlt)]
      · simp [sortKey, hc, hs, hlt, Nat.min_eq_right (Nat.le_of_not_lt hlt)]
    · intro hle
      simp [sortKey, hc, hs, Nat.not_lt.mpr hle]
  · intro rest hl hk
    simp [sortLayersState, hl, hk]
  · intro off d
    simp [keyLt, boolLt]
  · intro off b d1 d2 hd
    simp [keyLt, boolLt]
    omega

/-- C6 witness: a concrete layer with one capture starting at byte 5 and a
pending end at byte 3 has sort key `(3, false, 0)`; a captureless layer
with empty end stack has no sort key; ends order before starts at offset
7, and the deeper of two layers (depth 2 versus 1) orders first. -/
theorem c6_witness :
    sortKey c6LayerA = some (3, false, 0) ∧
    sortKey c6LayerB = none ∧
    keyLt (7, false, 0) (7, true, 0) = true ∧
    keyLt (7, true, -(2 : Int)) (7, true, -(1 : Int)) = true := by
  refine ⟨?_, ?_, ?_, ?_⟩
  · have h := ((c6_sort_key c6LayerA plainRun).2.2.2.1 (plainItem 5) [] 3 []
      rfl rfl).2 (by decide)
    simpa using h
  · exact ((c6_sort_key c6LayerB plainRun).1).mpr ⟨rfl, rfl⟩
  · exact (c6_sort_key c6LayerB plainRun).2.2.2.2.2.1 7 0
  · exact (c6_sort_key c6LayerB plainRun).2.2.2.2.2.2 7 true 2 1 (by decide)

/-! ### C7: emit_event -/

theorem sortLayersState_projections (s : IterState) :
    (sortLayersState s).next_event = s.next_event ∧
    (sortLayersState s).byte_offset = s.byte_offset ∧
    (sortLayersState s).source = s.source ∧
    (sortLayersState s).cancellation_flag = s.cancellation_flag ∧
    (sortLayersState s).iter_count = s.iter_count ∧
    (sortLayersState s).last_highlight_range = s.last_highlight_range := by
  cases hl : s.layers with
  | nil => simp [sortLayersState, hl]
  | cons front rest =>
    cases hk : sortKey front with
    | none => simp [sortLayersState, hl, hk]
    | some key =>
      by_cases hi : 0 < tailCount key rest <;>
        simp [sortLayersState, hl, hk, hi]

/-- C7: `emit_event(offset, event)` yields `Source{byte_offset, offset}`
and buffers `event` (returned verbatim by the following `next()` call)
when the byte cursor is strictly behind `offset`, and yields `event`
itself otherwise; in both cases the byte cursor afterwards equals
`max byte_offset offset` and the layers have been re-sorted. -/
theorem c7_emit_event (o : Oracles) (s : IterState) (offset : Nat)
    (event : Option HighlightEvent) :
    (s.byte_offset < offset →
      (emit_event s offset event).1 =
          some (Except.ok (.Source s.byte_offset offset)) ∧
      ((emit_event s offset event).2).next_event = event ∧
      (∀ e, event = some e →
        nextStep o ((emit_event s offset event).2) =
          some (.yield (Except.ok e)
            { (emit_event s offset event).2 with next_event := none }))) ∧
    (offset ≤ s.byte_offset →
      (emit_event s offset event).1 = event.map Except.ok ∧
      ((emit_event s offset event).2).next_event = s.next_event) ∧
    ((emit_event s offset event).2).byte_offset = max s.byte_offset offset ∧
    (emit_event s offset event).2 =
      sortLayersState { s with
                        byte_offset := max s.byte_offset offset,
                        next_event :=
                          if s.byte_offset < offset then event else s.next_event } := by
  by_cases h : s.byte_offset < offset
  · refine ⟨fun _ => ⟨?_, ?_, ?_⟩, fun h2 => absurd h (Nat.not_lt.mpr h2), ?_, ?_⟩
    · simp [emit_event, h]
    · simp [emit_event, h, (sortLayersState_projections _).1]
    · intro e he
      subst he
      have hne : ((emit_event s offset (some e)).2).next_event = some e := by
        simp [emit_event, h, (sortLayersState_projections _).1]
      unfold nextStep
      rw [hne]
    · simp [emit_event, h, (sortLayersState_projections _).2.1,
            Nat.max_eq_right (Nat.le_of_lt h)]
    · simp [emit_event, h, Nat.max_eq_right (Nat.le_of_lt h)]
  · refine ⟨fun h2 => absurd h2 h, fun _ => ⟨?_, ?_⟩, ?_, ?_⟩
    · simp [emit_event, h]
    · simp [emit_event, h, (sortLayersState_projections _).1]
    · simp [emit_event, h, (sortLayersState_projections _).2.1,
            Nat.max_eq_left (Nat.le_of_not_lt h)]
    · simp [emit_event, h, Nat.max_eq_left (Nat.le_of_not_lt h)]

/-- C7 witness: on a concrete state with byte cursor 0, emitting a
`HighlightEnd` anchored at offset 1 yields `Source{0, 1}` with the end
event buffered, and the following `next()` call returns it. -/
theorem c7_witness :
    (emit_event plainRun 1 (some .HighlightEnd)).1 =
        some (Except.ok (.Source 0 1)) ∧
    ((emit_event plainRun 1 (some .HighlightEnd)).2).next_event =
        some .HighlightEnd ∧
    nextStep noInjOracles ((emit_event plainRun 1 (some .HighlightEnd)).2) =
        some (.yield (Except.ok .HighlightEnd)
          { (emit_event plainRun 1 (some .HighlightEnd)).2 with next_event := none }) := by
  have h := (c7_emit_event noInjOracles plainRun 1 (some .HighlightEnd)).1 (by decide)
  exact ⟨h.1, h.2.1, h.2.2 _ rfl⟩

/-! ### C2: empty-intersection injections still create a layer -/

/-- C2 (code bug): with the parent layer's ranges covering only `[0, 10)`
and the injection's only content node spanning `[20, 30)`,
`intersect_ranges` returns the empty range list — yet the injection step
still constructs the nested layer: after the step the run holds a second
layer, at depth 1 with the freshly constructed cursor 99 and an EMPTY
`ranges` vector, although `intersect_ranges` itself expects that "Layers
should only be constructed with non-empty ranges vectors". -/
theorem c2_empty_intersection_layer_created :
    intersect_ranges [⟨0, 10⟩] [contentNode] false = some [] ∧
    intersect_ranges [⟨0, 10⟩] [contentNode] true = some [] ∧
    injObserved = some ([[⟨0, 10⟩], []], [0, 1], [0, 99]) := by
  refine ⟨by decide, by decide, by decide⟩

/-! ### The cancellation run, one call at a time -/

theorem skip_zItems (nd : NodeRef) (n j : Nat) (h : nd.id ≠ j) :
    skipSameNode nd (zItems n j) = zItems n j := by
  cases n with
  | zero => rfl
  | succ m =>
    rw [zItems, skipSameNode]
    have hne : (zItem j).cap.node ≠ nd := by
      intro he
      apply h
      rw [← he]
      rfl
    rw [beq_eq_false_iff_ne.mpr hne]
    simp [zItems]

theorem sortKey_zItems_stack0 (n j : Nat) :
    sortKey { cursor := 0, captures := zItems n j, config := zCfg,
              highlight_end_stack := [0], scope_stack := [rootScope],
              ranges := [⟨0, USIZE_MAX⟩], depth := 0 } = some (0, false, 0) := by
  cases n <;> simp [sortKey, zItems, zItem, StreamItem.cap]

theorem sortLayersState_zB (n j c : Nat) :
    sortLayersState (zStateB n j c) = zStateB n j c := by
  simp [sortLayersState, zStateB, sortKey_zItems_stack0, tailCount]

theorem sortLayersState_litB (n j c : Nat) :
    sortLayersState
        { source := [97], byte_offset := 0, cancellation_flag := some 1,
          layers := [{ cursor := 0, captures := zItems n j, config := zCfg,
                       highlight_end_stack := [0], scope_stack := [rootScope],
                       ranges := [⟨0, USIZE_MAX⟩], depth := 0 }],
          iter_count := c, next_event := none, last_highlight_range := some (0, 0, 0),
          cursor_pool := [] } =
      zStateB n j c :=
  sortLayersState_zB n j c

theorem nonLocalSkip_of_not_local (cfg : ConfigModel) (has : Bool) (cap : QCapture)
    (pi : Nat) (stream : List StreamItem) :
    nonLocalSkip cfg false has cap pi stream = (has, cap, pi, stream) := by
  cases stream <;> simp [nonLocalSkip]

theorem zStepA (n j c : Nat) (hc : c + 1 < 100) (last : Option (Nat × Nat × Nat))
    (hlast : last = none ∨ last = some (0, 0, 0)) :
    nextStep noInjOracles (zStateA (n + 1) j c last) =
      some (.yield (Except.ok (.HighlightStart 0)) (zStateB n (j + 1) (c + 1))) := by
  have e1 : zCfg.locals_pattern_index = 0 := rfl
  have e2 : zCfg.highlights_pattern_index = 0 := rfl
  have e3 : zCfg.highlight_indices = [some 0] := rfl
  have e4 : zCfg.non_local_variable_patterns = [false] := rfl
  have er : rootScope.range.rend = USIZE_MAX := rfl
  have hskip : skipSameNode (⟨j, ⟨0, 0⟩, []⟩ : NodeRef) (zItems n (j + 1)) =
      zItems n (j + 1) :=
    skip_zItems _ _ _ (by simp)
  unfold nextStep
  simp only [zStateA]
  rw [if_neg (by simp only [CANCELLATION_CHECK_INTERVAL]; omega)]
  rcases hlast with h | h <;> subst h <;>
    simp [afterCancellation, mainBranch, zItems, zItem, StreamItem.cap,
          NodeRef.byte_range, popScopes, er, e1, e2, e3, e4, localsLoop,
          nonLocalSkip_of_not_local, hskip, emit_event, emitToStep, Option.or,
          zStateB] <;>
    exact sortLayersState_zB n (j + 1) (c + 1)

theorem sortLayersState_zA (n j c : Nat) (last : Option (Nat × Nat × Nat)) :
    sortLayersState (zStateA (n + 1) j c last) = zStateA (n + 1) j c last := by
  simp [sortLayersState, zStateA, zItems, zItem, sortKey, StreamItem.cap, tailCount]

theorem zStepB (n j c : Nat) (hc : c + 1 < 100) :
    nextStep noInjOracles (zStateB (n + 1) j c) =
      some (.yield (Except.ok .HighlightEnd)
        (zStateA (n + 1) j (c + 1) (some (0, 0, 0)))) := by
  unfold nextStep
  simp only [zStateB]
  rw [if_neg (by simp only [CANCELLATION_CHECK_INTERVAL]; omega)]
  simp [afterCancellation, zItems, zItem, StreamItem.cap, NodeRef.byte_range,
        emit_event, emitToStep]
  exact sortLayersState_zA n j (c + 1) (some (0, 0, 0))

theorem zStepC (n j : Nat) :
    nextStep noInjOracles (zStateB n j 99) =
      some (.yield (Except.error .Cancelled) { zStateB n j 99 with iter_count := 0 }) := by
  unfold nextStep
  simp only [zStateB]
  rw [if_pos (by simp [CANCELLATION_CHECK_INTERVAL])]
  simp [zStateB]

theorem zChain (k : Nat) (hk : k ≤ 49) :
    callsFrom noInjOracles (2 * k) (zStateA 100 0 0 none) =
      zStateA (100 - k) k (2 * k) (if k = 0 then none else some (0, 0, 0)) := by
  induction k with
  | zero => rfl
  | succ m ih =>
    have hm : m ≤ 49 := by omega
    have h2 : 2 * (m + 1) = (2 * m + 1) + 1 := by ring
    rw [h2, callsFrom, callsFrom, ih hm]
    have e1 : 100 - m = (99 - m) + 1 := by omega
    rw [e1]
    have hA := zStepA (99 - m) m (2 * m) (by omega)
      (if m = 0 then none else some (0, 0, 0))
      (by by_cases hm0 : m = 0 <;> simp [hm0])
    have step1 : (nextFuel 1 noInjOracles
        (zStateA ((99 - m) + 1) m (2 * m) (if m = 0 then none else some (0, 0, 0)))).2 =
        zStateB (99 - m) (m + 1) (2 * m + 1) := by
      rw [nextFuel, hA]
    rw [step1]
    have e2 : 99 - m = (98 - m) + 1 := by omega
    rw [e2]
    have hB := zStepB (98 - m) (m + 1) (2 * m + 1) (by omega)
    have step2 : (nextFuel 1 noInjOracles (zStateB ((98 - m) + 1) (m + 1) (2 * m + 1))).2 =
        zStateA ((98 - m) + 1) (m + 1) ((2 * m + 1) + 1) (some (0, 0, 0)) := by
      rw [nextFuel, hB]
    rw [step2]
    have e3 : 100 - (m + 1) = (98 - m) + 1 := by omega
    rw [e3]
    simp

/-- C3 counterexample: a genuine run from `Highlighter::highlight`\'s
initial state (100 zero-width highlight captures, cancellation flag 1
from the start).  Its 100th call to `next()` yields `Err(Cancelled)`, and
its 101st call yields `Ok(HighlightEnd)` — not `None`: the error was not
terminal. -/
theorem c3_counterexample :
    (nextFuel 1 noInjOracles (callsFrom noInjOracles 99
        (initState [97] (some 1) zLayer0 []))).1 =
      .yielded (Except.error .Cancelled) ∧
    (nextFuel 1 noInjOracles (callsFrom noInjOracles 100
        (initState [97] (some 1) zLayer0 []))).1 =
      .yielded (Except.ok .HighlightEnd) := by
  have h0 : initState [97] (some 1) zLayer0 [] = zStateA 100 0 0 none := rfl
  have h98 : callsFrom noInjOracles 98 (zStateA 100 0 0 none) =
      zStateA 51 49 98 (some (0, 0, 0)) := by
    have := zChain 49 (by omega)
    simpa using this
  have h99 : callsFrom noInjOracles 99 (zStateA 100 0 0 none) = zStateB 50 50 99 := by
    rw [show (99 : Nat) = 98 + 1 from rfl, callsFrom, h98]
    have hA := zStepA 50 49 98 (by omega) (some (0, 0, 0)) (Or.inr rfl)
    rw [show (51 : Nat) = 50 + 1 from rfl] at *
    rw [nextFuel, hA]
  have h100 : callsFrom noInjOracles 100 (zStateA 100 0 0 none) = zStateB 50 50 0 := by
    rw [show (100 : Nat) = 99 + 1 from rfl, callsFrom, h99, nextFuel, zStepC 50 50]
    rfl
  constructor
  · rw [h0, h99, nextFuel, zStepC 50 50]
  · rw [h0, h100]
    have hB := zStepB 49 50 0 (by omega)
    rw [show (50 : Nat) = 49 + 1 from rfl] at hB ⊢
    rw [nextFuel, hB]

/-- C3 (amended): an `Err` yielded by `next()` is not terminal.  A
cancellation error leaves the whole iterator state unchanged except the
poll counter, which resets to 0, so subsequent calls continue from where
the iterator stood and may yield further items; stopping after an error
is left to the caller. -/
theorem c3_err_not_terminal (o : Oracles) (s : IterState) (v : Nat)
    (hne : s.next_event = none) (hf : s.cancellation_flag = some v) (hv : v ≠ 0)
    (hcnt : CANCELLATION_CHECK_INTERVAL ≤ s.iter_count + 1) :
    nextStep o s = some (.yield (Except.error .Cancelled) { s with iter_count := 0 }) := by
  unfold nextStep
  rw [hne]
  simp only []
  rw [hf]
  simp only []
  rw [if_pos hcnt, if_pos hv]

/-- C3 witness: the not-terminal cancellation step at the concrete state
the counterexample run reaches after 99 calls. -/
theorem c3_err_not_terminal_witness :
    nextStep noInjOracles (zStateB 50 50 99) =
      some (.yield (Except.error .Cancelled) { zStateB 50 50 99 with iter_count := 0 }) :=
  c3_err_not_terminal noInjOracles (zStateB 50 50 99) 1 rfl rfl (by decide) (by decide)

/-! ### C8: the cancellation poll -/

/-- C8: with a cancellation flag supplied, `next()` polls exactly when its
loop counter reaches CANCELLATION_CHECK_INTERVAL = 100: at a poll with a
nonzero flag the call yields `Err(Cancelled)` (resetting the counter); at
a poll with a zero flag the counter resets and the iteration proceeds;
between polls the counter merely increments and the flag is not
consulted. -/
theorem c8_cancellation_poll (o : Oracles) (s : IterState) (v : Nat)
    (hne : s.next_event = none) (hf : s.cancellation_flag = some v) :
    CANCELLATION_CHECK_INTERVAL = 100 ∧
    (v ≠ 0 → CANCELLATION_CHECK_INTERVAL ≤ s.iter_count + 1 →
      nextStep o s =
          some (.yield (Except.error .Cancelled) { s with iter_count := 0 }) ∧
      ∀ fuel, nextFuel (fuel + 1) o s =
        (.yielded (Except.error .Cancelled), { s with iter_count := 0 })) ∧
    (v = 0 → CANCELLATION_CHECK_INTERVAL ≤ s.iter_count + 1 →
      nextStep o s = afterCancellation o { s with iter_count := 0 }) ∧
    (s.iter_count + 1 < CANCELLATION_CHECK_INTERVAL →
      nextStep o s = afterCancellation o { s with iter_count := s.iter_count + 1 }) := by
  refine ⟨rfl, fun hv hcnt => ?_, fun hv hcnt => ?_, fun hcnt => ?_⟩
  · have hstep : nextStep o s =
        some (.yield (Except.error .Cancelled) { s with iter_count := 0 }) := by
      unfold nextStep
      rw [hne]
      simp only []
      rw [hf]
      simp only []
      rw [if_pos hcnt, if_pos hv]
    refine ⟨hstep, fun fuel => ?_⟩
    rw [nextFuel, hstep]
  · unfold nextStep
    rw [hne]
    simp only []
    rw [hf]
    simp only []
    rw [if_pos hcnt, if_neg (not_not_intro hv)]
  · unfold nextStep
    rw [hne]
    simp only []
    rw [hf]
    simp only []
    rw [if_neg (by omega)]

/-- C8 witness: at the state reached after 99 calls of the cancellation
run (counter 99, flag 1), the poll fires and the call yields
`Err(Cancelled)`; and one call earlier (counter 98) the step is an
ordinary iteration. -/
theorem c8_witness :
    nextStep noInjOracles (zStateA 51 49 98 (some (0, 0, 0))) =
      afterCancellation noInjOracles
        { zStateA 51 49 98 (some (0, 0, 0)) with iter_count := 99 } ∧
    nextFuel 1 noInjOracles (zStateB 50 50 99) =
      (.yielded (Except.error .Cancelled), { zStateB 50 50 99 with iter_count := 0 }) := by
  constructor
  · exact (c8_cancellation_poll noInjOracles (zStateA 51 49 98 (some (0, 0, 0))) 1
      rfl rfl).2.2.2 (by decide)
  · exact (((c8_cancellation_poll noInjOracles (zStateB 50 50 99) 1 rfl rfl).2.1
      (by decide) (by decide)).2 0)

/-! ### C10: injection language precedence -/

theorem injCaptureLoop_lang (siteIdx langIdx contentIdx : Option Nat) (source : List Nat)
    (site : NodeRef) (caps : List QCapture) :
    ∀ e : InjEntry,
      (injCaptureLoop siteIdx langIdx contentIdx source site e caps).lang =
        (e.lang).or (firstValidLang siteIdx langIdx source site caps) := by
  induction caps with
  | nil =>
    intro e
    cases he : e.lang <;> simp [injCaptureLoop, firstValidLang, Option.or, he]
  | cons cap rest ih =>
    intro e
    rw [injCaptureLoop, firstValidLang]
    by_cases hs : (some cap.index == siteIdx) = true
    · rw [if_pos hs, if_pos hs]
      by_cases hn : cap.node ≠ site
      · rw [if_pos hn, if_pos hn]
        cases e.lang <;> simp [Option.or]
      · rw [if_neg hn, if_neg hn]
        exact ih e
    · rw [if_neg hs, if_neg hs]
      by_cases hl : (some cap.index == langIdx) = true
      · rw [if_pos hl]
        cases he : e.lang with
        | none =>
          rw [if_pos (by simp [hl, he]), ih]
          cases hu : utf8Text source cap.node with
          | some t => simp [hu, Option.or]
          | none => simp [hu, Option.or]
        | some v =>
          rw [if_neg (by simp [hl, he])]
          by_cases hcnt : (some cap.index == contentIdx) = true
          · rw [if_pos hcnt, ih]
            simp [he, Option.or]
          · rw [if_neg hcnt, ih]
            simp [he, Option.or]
      · rw [if_neg (by simp [hl]), if_neg hl]
        by_cases hcnt : (some cap.index == contentIdx) = true
        · rw [if_pos hcnt, ih]
        · rw [if_neg hcnt, ih]

theorem injCaptureLoop_pattern (siteIdx langIdx contentIdx : Option Nat)
    (source : List Nat) (site : NodeRef) (caps : List QCapture) :
    ∀ e : InjEntry,
      (injCaptureLoop siteIdx langIdx contentIdx source site e caps).pattern_index =
        e.pattern_index := by
  induction caps with
  | nil => intro e; rfl
  | cons cap rest ih =>
    intro e
    rw [injCaptureLoop]
    by_cases hs : (some cap.index == siteIdx) = true
    · rw [if_pos hs]
      by_cases hn : cap.node ≠ site
      · rw [if_pos hn]
      · rw [if_neg hn]; exact ih _
    · rw [if_neg hs]
      by_cases hl : (some cap.index == langIdx && e.lang.isNone) = true
      · rw [if_pos hl]; exact ih _
      · rw [if_neg hl]
        by_cases hcnt : (some cap.index == contentIdx) = true
        · rw [if_pos hcnt]; exact ih _
        · rw [if_neg hcnt]; exact ih _

theorem applyInjectionProps_lang (props : List (String × Option String)) :
    ∀ e : InjEntry,
      (applyInjectionProps props e).lang = (e.lang).or (firstPropLang props) := by
  induction props with
  | nil =>
    intro e
    cases he : e.lang <;> simp [applyInjectionProps, firstPropLang, Option.or, he]
  | cons kv rest ih =>
    intro e
    rw [firstPropLang]
    have hstep : applyInjectionProps (kv :: rest) e =
        applyInjectionProps rest
          (if kv.1 == "injection.language" then
            (if e.lang.isNone then { e with lang := kv.2 } else e)
          else if kv.1 == "injection.include-children" then
            { e with include_children := true }
          else e) := by
      rw [applyInjectionProps, applyInjectionProps, List.foldl_cons]
    rw [hstep, ih]
    by_cases hk : (kv.1 == "injection.language") = true
    · rw [if_pos hk, if_pos hk]
      cases he : e.lang with
      | some v => simp [he, Option.or]
      | none =>
        cases hv : kv.2 with
        | some v => simp [he, hv, Option.or]
        | none => simp [he, hv, Option.or]
    · rw [if_neg hk, if_neg hk]
      by_cases hk2 : (kv.1 == "injection.include-children") = true
      · rw [if_pos hk2]
      · rw [if_neg hk2]

/-- C10: for an injection group gathered at a site, the language taken
from the UTF-8 text of the group\'s first `injection.language` capture
that decodes validly takes precedence over a `#set! injection.language`
property: the final language is the harvested text when one exists, and
the property\'s literal value is consulted only when no capture in the
group produced valid UTF-8 text.  The last conjunct grounds this in the
full grouping pass over the injections-only query\'s matches. -/
theorem c10_language_precedence (siteIdx langIdx contentIdx : Option Nat)
    (source : List Nat) (site : NodeRef) (caps : List QCapture)
    (props : List (String × Option String)) (p : Nat) :
    (applyInjectionProps props
        (injCaptureLoop siteIdx langIdx contentIdx source site
          ⟨p, none, [], false⟩ caps)).lang =
      (firstValidLang siteIdx langIdx source site caps).or (firstPropLang props) ∧
    (∀ t, firstValidLang siteIdx langIdx source site caps = some t →
      (applyInjectionProps props
        (injCaptureLoop siteIdx langIdx contentIdx source site
          ⟨p, none, [], false⟩ caps)).lang = some t) ∧
    (firstValidLang siteIdx langIdx source site caps = none →
      (applyInjectionProps props
        (injCaptureLoop siteIdx langIdx contentIdx source site
          ⟨p, none, [], false⟩ caps)).lang = firstPropLang props) ∧
    (∀ (cfg : ConfigModel) (mid : Nat),
      applyAllInjectionProps cfg
          (gatherInjections siteIdx langIdx contentIdx source site [⟨mid, p, caps⟩]) =
        [applyInjectionProps (cfg.property_settings p)
          (injCaptureLoop siteIdx langIdx contentIdx source site
            ⟨p, none, [], false⟩ caps)]) := by
  have hbase : (applyInjectionProps props
      (injCaptureLoop siteIdx langIdx contentIdx source site
        ⟨p, none, [], false⟩ caps)).lang =
      (firstValidLang siteIdx langIdx source site caps).or (firstPropLang props) := by
    rw [applyInjectionProps_lang, injCaptureLoop_lang]
    cases firstValidLang siteIdx langIdx source site caps <;> simp [Option.or]
  refine ⟨hbase, fun t ht => ?_, fun hn => ?_, fun cfg mid => ?_⟩
  · rw [hbase, ht]; rfl
  · rw [hbase, hn]; rfl
  · simp [gatherInjections, updateEntry, applyAllInjectionProps, injCaptureLoop_pattern]

/-- C10 witness: with source bytes `"xy"`, a language capture whose text
is `"x"`, and a property hard-coding `"z"`, the group\'s final language is
`"x"` — the capture text wins over the property. -/
theorem c10_witness :
    (applyInjectionProps [("injection.language", some "z")]
        (injCaptureLoop (some 0) (some 2) (some 1) [120, 121] siteNode
          ⟨0, none, [], false⟩ [⟨2, langNode⟩])).lang = some "x" :=
  (c10_language_precedence (some 0) (some 2) (some 1) [120, 121] siteNode
      [⟨2, langNode⟩] [("injection.language", some "z")] 0).2.1 "x" (by decide)

/-! ### C9: no empty Source spans -/

theorem nbs_of_eq (s s2 : IterState) (h : s2.next_event = s.next_event)
    (hs : noBufferedSource s) : noBufferedSource s2 := by
  intro a b
  rw [h]
  exact hs a b

theorem sortLayersState_nbs (s : IterState) (hs : noBufferedSource s) :
    noBufferedSource (sortLayersState s) :=
  nbs_of_eq s _ (sortLayersState_projections s).1 hs

theorem insertLayerState_next_event (s : IterState) (l : LayerM) :
    (insertLayerState s l).next_event = s.next_event := by
  cases hl : s.layers <;> simp [insertLayerState, hl]

theorem createLayers_next_event (o : Oracles) (es : List InjEntry) :
    ∀ (s : IterState) (r : Option ErrorM × IterState),
      createLayers o es s = some r → r.2.next_event = s.next_event := by
  induction es with
  | nil =>
    intro s r h
    rw [createLayers] at h
    simp only [Option.some.injEq] at h
    rw [← h]
  | cons e rest ih =>
    intro s r h
    rw [createLayers] at h
    cases he : e.lang with
    | none =>
      rw [he] at h
      exact ih s r h
    | some lname =>
      rw [he] at h
      simp only [] at h
      by_cases hcb : o.injection_callback lname = true
      · rw [if_pos hcb] at h
        by_cases hemp : e.content.isEmpty = true
        · rw [if_pos hemp] at h
          exact ih s r h
        · rw [if_neg hemp] at h
          cases hhd : s.layers.head? with
          | none => rw [hhd] at h; simp at h
          | some front =>
            rw [hhd] at h
            simp only [] at h
            cases hir : intersect_ranges front.ranges e.content e.include_children with
            | none => rw [hir] at h; simp at h
            | some ranges =>
              rw [hir] at h
              simp only [] at h
              cases hnl : o.new_layer lname (front.depth + 1) ranges with
              | ok layer =>
                rw [hnl] at h
                simp only [] at h
                rw [ih _ _ h, insertLayerState_next_event]
              | error err =>
                rw [hnl] at h
                simp only [Option.some.injEq] at h
                rw [← h]
      · rw [if_neg hcb] at h
        exact ih s r h

theorem emit_event_c9 (s : IterState) (offset : Nat) (event : Option HighlightEvent)
    (hs : noBufferedSource s) (hev : ∀ a b, event ≠ some (.Source a b)) :
    (∀ a b, (emit_event s offset event).1 = some (Except.ok (.Source a b)) → a < b) ∧
    noBufferedSource ((emit_event s offset event).2) := by
  unfold emit_event
  by_cases h : s.byte_offset < offset
  · rw [if_pos h]
    constructor
    · intro a b hab
      simp only [Option.some.injEq, Except.ok.injEq,
                 HighlightEvent.Source.injEq] at hab
      obtain ⟨h1, h2⟩ := hab
      omega
    · intro a b
      rw [(sortLayersState_projections _).1]
      exact hev a b
  · rw [if_neg h]
    constructor
    · intro a b hab
      cases event with
      | none => simp at hab
      | some ev =>
        simp only [Option.map_some', Option.some.injEq, Except.ok.injEq] at hab
        exact absurd (congrArg some hab) (hev a b)
    · intro a b
      rw [(sortLayersState_projections _).1]
      exact hs a b

theorem emitToStep_sourceOk (s : IterState) (offset : Nat) (event : Option HighlightEvent)
    (hs : noBufferedSource s) (hev : ∀ a b, event ≠ some (.Source a b)) :
    sourceStepOk (some (emitToStep (emit_event s offset event))) := by
  have h := emit_event_c9 s offset event hs hev
  rcases hp : emit_event s offset event with ⟨r, s2⟩
  rw [hp] at h
  refine ⟨?_, ?_, ?_, ?_⟩
  · intro a b s1 hr
    cases r with
    | none => simp [emitToStep] at hr
    | some x =>
      simp only [emitToStep, Option.some.injEq, StepResult.yield.injEq] at hr
      exact h.1 a b (by rw [hr.1])
  · intro x s1 hr
    cases r with
    | none => simp [emitToStep] at hr
    | some y =>
      simp only [emitToStep, Option.some.injEq, StepResult.yield.injEq] at hr
      rw [← hr.2]
      exact h.2
  · intro s1 hr
    cases r <;> simp [emitToStep] at hr
  · intro s1 hr
    cases r with
    | none =>
      simp only [emitToStep, Option.some.injEq, StepResult.halt.injEq] at hr
      rw [← hr]
      exact h.2
    | some y => simp [emitToStep] at hr

theorem injAux (o : Oracles) (s : IterState) (es : List InjEntry) (s0 : IterState)
    (hs0 : s0.next_event = s.next_event) (hs : noBufferedSource s) :
    sourceStepOk (match createLayers o es s0 with
      | none => none
      | some (some err, s2) => some (.yield (Except.error err) s2)
      | some (none, s2) => some (.again (sortLayersState s2))) := by
  cases hcl : createLayers o es s0 with
  | none =>
    refine ⟨?_, ?_, ?_, ?_⟩
    · intro a b s1 hr; simp at hr
    · intro x s1 hr; simp at hr
    · intro s1 hr; simp at hr
    · intro s1 hr; simp at hr
  | some p =>
    rcases p with ⟨oe, s2⟩
    have h2 : s2.next_event = s.next_event := by
      rw [createLayers_next_event o es s0 (oe, s2) hcl, hs0]
    cases oe with
    | none =>
      refine ⟨?_, ?_, ?_, ?_⟩
      · intro a b s1 hr; simp at hr
      · intro x s1 hr; simp at hr
      · intro s1 hr
        simp only [Option.some.injEq, StepResult.again.injEq] at hr
        refine nbs_of_eq s _ ?_ hs
        rw [← hr, (sortLayersState_projections s2).1, h2]
      · intro s1 hr; simp at hr
    | some err =>
      refine ⟨?_, ?_, ?_, ?_⟩
      · intro a b s1 hr; simp at hr
      · intro x s1 hr
        simp only [Option.some.injEq, StepResult.yield.injEq] at hr
        refine nbs_of_eq s _ ?_ hs
        rw [← hr.2, h2]
      · intro s1 hr; simp at hr
      · intro s1 hr; simp at hr

theorem injectionBranch_sourceOk (o : Oracles) (s : IterState) (front : LayerM)
    (rest : List LayerM) (m : QMatch) (hs : noBufferedSource s) :
    sourceStepOk (injectionBranch o s front rest m) := by
  unfold injectionBranch
  simp only []
  cases hsn : findSiteNode front.config.injection_site_capture_index m.captures with
  | none =>
    simp only [hsn]
    refine ⟨?_, ?_, ?_, ?_⟩
    · intro a b s1 hr; simp at hr
    · intro x s1 hr; simp at hr
    · intro s1 hr
      simp only [Option.some.injEq, StepResult.again.injEq] at hr
      exact nbs_of_eq s _ (by rw [← hr]) hs
    · intro s1 hr; simp at hr
  | some site =>
    simp only [hsn]
    exact injAux o s _ _ rfl hs

theorem emitToStep_yield (p : Option (Except ErrorM HighlightEvent) × IterState)
    (x : Except ErrorM HighlightEvent) (s1 : IterState)
    (h : emitToStep p = .yield x s1) : p.1 = some x ∧ p.2 = s1 := by
  rcases p with ⟨r, s2⟩
  cases r <;> simp_all [emitToStep]

theorem emitToStep_halt_eq (p : Option (Except ErrorM HighlightEvent) × IterState)
    (s1 : IterState) (h : emitToStep p = .halt s1) : p.2 = s1 := by
  rcases p with ⟨r, s2⟩
  cases r <;> simp_all [emitToStep]

theorem emitToStep_not_again (p : Option (Except ErrorM HighlightEvent) × IterState)
    (s1 : IterState) (h : emitToStep p = .again s1) : False := by
  rcases p with ⟨r, s2⟩
  cases r <;> simp_all [emitToStep]

theorem mainBranch_sourceOk (o : Oracles) (s : IterState) (front : LayerM)
    (rest : List LayerM) (it : StreamItem) (hs : noBufferedSource s) :
    sourceStepOk (mainBranch o s front rest it) := by
  unfold mainBranch
  simp only []
  cases hps : popScopes (it.cap.node.byte_range).rstart front.scope_stack with
  | none =>
    simp only [hps]
    exact ⟨fun a b s1 hr => by simp at hr, fun x s1 hr => by simp at hr,
           fun s1 hr => by simp at hr, fun s1 hr => by simp at hr⟩
  | some scopes0 =>
    simp only [hps]
    by_cases hp : it.m.pattern_index < front.config.locals_pattern_index
    · rw [if_pos hp]
      exact injectionBranch_sourceOk o s _ rest it.m hs
    · rw [if_neg hp]
      cases hll : localsLoop front.config s.source it.cap.node.byte_range it.cap
          it.m.captures it.m.pattern_index front.captures.tail scopes0 none false with
      | none =>
        simp only [hll]
        exact ⟨fun a b s1 hr => by simp at hr, fun x s1 hr => by simp at hr,
               fun s1 hr => by simp at hr, fun s1 hr => by simp at hr⟩
      | some out =>
        simp only [hll]
        refine ⟨?_, ?_, ?_, ?_⟩
        · intro a b s1 hr
          split at hr
          · split at hr
            · simp only [Option.some.injEq] at hr
              obtain ⟨h1, _⟩ := emitToStep_yield _ _ _ hr
              refine (emit_event_c9 _ _ _ ?_ ?_).1 a b h1
              · exact nbs_of_eq s _ rfl hs
              · exact fun a b hcon => HighlightEvent.noConfusion (Option.some.inj hcon)
            · simp at hr
          · simp at hr
        · intro x s1 hr
          split at hr
          · split at hr
            · simp only [Option.some.injEq] at hr
              obtain ⟨_, h2⟩ := emitToStep_yield _ _ _ hr
              rw [← h2]
              refine (emit_event_c9 _ _ _ ?_ ?_).2
              · exact nbs_of_eq s _ rfl hs
              · exact fun a b hcon => HighlightEvent.noConfusion (Option.some.inj hcon)
            · simp at hr
          · simp at hr
        · intro s1 hr
          split at hr
          · split at hr
            · simp only [Option.some.injEq] at hr
              exact absurd hr (by intro hcon; exact emitToStep_not_again _ _ hcon)
            · simp only [Option.some.injEq, StepResult.again.injEq] at hr
              exact nbs_of_eq s _ (by rw [← hr, (sortLayersState_projections _).1]) hs
          · simp only [Option.some.injEq, StepResult.again.injEq] at hr
            exact nbs_of_eq s _ (by rw [← hr, (sortLayersState_projections _).1]) hs
        · intro s1 hr
          split at hr
          · split at hr
            · simp only [Option.some.injEq] at hr
              have h2 := emitToStep_halt_eq _ _ hr
              rw [← h2]
              refine (emit_event_c9 _ _ _ ?_ ?_).2
              · exact nbs_of_eq s _ rfl hs
              · exact fun a b hcon => HighlightEvent.noConfusion (Option.some.inj hcon)
            · simp at hr
          · simp at hr

theorem afterCancellation_sourceOk (o : Oracles) (s : IterState)
    (hs : noBufferedSource s) : sourceStepOk (afterCancellation o s) := by
  unfold afterCancellation
  cases hl : s.layers with
  | nil =>
    simp only [hl]
    by_cases hb : s.byte_offset < s.source.length
    · rw [if_pos hb]
      refine ⟨?_, ?_, ?_, ?_⟩
      · intro a b s1 hr
        simp only [Option.some.injEq, StepResult.yield.injEq, Except.ok.injEq,
                   HighlightEvent.Source.injEq] at hr
        obtain ⟨⟨h1, h2⟩, _⟩ := hr
        omega
      · intro x s1 hr
        simp only [Option.some.injEq, StepResult.yield.injEq] at hr
        exact nbs_of_eq s _ (by rw [← hr.2]) hs
      · intro s1 hr; simp at hr
      · intro s1 hr; simp at hr
    · rw [if_neg hb]
      refine ⟨?_, ?_, ?_, ?_⟩
      · intro a b s1 hr; simp at hr
      · intro x s1 hr; simp at hr
      · intro s1 hr; simp at hr
      · intro s1 hr
        simp only [Option.some.injEq, StepResult.halt.injEq] at hr
        exact nbs_of_eq s _ (by rw [← hr]) hs
  | cons front rest =>
    simp only [hl]
    cases hc : front.captures with
    | nil =>
      simp only [hc]
      cases hes : front.highlight_end_stack with
      | cons e es =>
        simp only [hes]
        exact emitToStep_sourceOk _ e (some .HighlightEnd) hs
          (by intro a b hcon; simp at hcon)
      | nil =>
        simp only [hes]
        exact emitToStep_sourceOk s s.source.length none hs
          (by intro a b hcon; simp at hcon)
    | cons item items =>
      simp only [hc]
      cases hes : front.highlight_end_stack with
      | cons e es =>
        simp only [hes]
        by_cases hle : e ≤ (item.cap.node.byte_range).rstart
        · rw [if_pos hle]
          exact emitToStep_sourceOk _ e (some .HighlightEnd) hs
            (by intro a b hcon; simp at hcon)
        · rw [if_neg hle]
          exact mainBranch_sourceOk o s front rest item hs
      | nil =>
        simp only [hes]
        exact mainBranch_sourceOk o s front rest item hs

/-- C9: every `Source{start, end}` event the iterator emits satisfies
`start < end`: a step never yields an empty source span (the two emitting
sites both guard on the byte cursor being strictly behind the target),
and no step ever buffers a `Source` event in `next_event` — an invariant
that holds in the initial state built by `highlight` and is preserved by
every step. -/
theorem c9_no_empty_source (o : Oracles) (s : IterState) (hs : noBufferedSource s) :
    sourceStepOk (nextStep o s) ∧
    (∀ (src : List Nat) (flag : Option Nat) (layer : LayerM) (pool : List Nat),
      noBufferedSource (initState src flag layer pool)) := by
  constructor
  · unfold nextStep
    cases hne : s.next_event with
    | some e =>
      simp only [hne]
      refine ⟨?_, ?_, ?_, ?_⟩
      · intro a b s1 hr
        simp only [Option.some.injEq, StepResult.yield.injEq, Except.ok.injEq] at hr
        exact absurd (hne.trans (congrArg some hr.1)) (hs a b)
      · intro x s1 hr
        simp only [Option.some.injEq, StepResult.yield.injEq] at hr
        intro a b
        rw [← hr.2]
        simp
      · intro s1 hr; simp at hr
      · intro s1 hr; simp at hr
    | none =>
      simp only [hne]
      cases hf : s.cancellation_flag with
      | none =>
        simp only [hf]
        exact afterCancellation_sourceOk o s hs
      | some v =>
        simp only [hf]
        by_cases hcnt : CANCELLATION_CHECK_INTERVAL ≤ s.iter_count + 1
        · rw [if_pos hcnt]
          by_cases hv : v ≠ 0
          · rw [if_pos hv]
            refine ⟨?_, ?_, ?_, ?_⟩
            · intro a b s1 hr; simp at hr
            · intro x s1 hr
              simp only [Option.some.injEq, StepResult.yield.injEq] at hr
              intro a b
              rw [← hr.2]
              simp
            · intro s1 hr; simp at hr
            · intro s1 hr; simp at hr
          · rw [if_neg hv]
            exact afterCancellation_sourceOk o _ (by intro a b; simp)
        · rw [if_neg hcnt]
          exact afterCancellation_sourceOk o _ (by intro a b; simp)
  · intro src flag layer pool a b
    simp [initState]

/-- C9 witness: the invariant instantiated at a concrete fresh run. -/
theorem c9_witness :
    sourceStepOk (nextStep noInjOracles plainRun) ∧
    (∀ (src : List Nat) (flag : Option Nat) (layer : LayerM) (pool : List Nat),
      noBufferedSource (initState src flag layer pool)) :=
  c9_no_empty_source noInjOracles plainRun (by intro a b; simp [plainRun, initState])

end TSHighlight
